import Mathlib

/-!
Pitclaw control core: shallow embedding.

Embedding of the firmware units `PidController`, `splitRange`, `GraphHistory`
and `TempManager` (directory `firmware/src`).

Conventions of the embedding:

* C `float`/`double` values are modelled by exact rationals `ℚ` (the real-number
  reading of the arithmetic; rounding, infinities and NaN are outside the model).
  Where rounding decides a property, the `float` operations are rounded by
  `f32Round` (`splitRangeF32`).
* Calls into external libraries are inputs of the model: the value QuickPID leaves
  in `_pidOutput`, the raw ADC samples returned by the ADS1115 driver, `millis()`
  and libm's `logf`.
* The firmware build is modelled (the code inside `#ifndef NATIVE_BUILD`).
-/

namespace Pitclaw

/-! ## config.h -/

def PID_OUTPUT_MIN : ℚ := 0
def PID_OUTPUT_MAX : ℚ := 100
def LID_OPEN_DROP_PCT : ℚ := 6
def LID_OPEN_RECOVER_PCT : ℚ := 2

/-! ## pid_controller.h / pid_controller.cpp -/

/-- Lid-open state machine (`enum class LidState`). -/
inductive LidState where
  | CLOSED
  | OPEN
  deriving DecidableEq, Repr

/-- Data members of `class PidController`. The `QuickPID* _pid` object is external;
its only effect on these members is the write to `_pidOutput` made by `Compute()`,
which `compute` receives as an input. -/
structure PidController where
  _kp : ℚ
  _ki : ℚ
  _kd : ℚ
  _pidInput : ℚ
  _pidOutput : ℚ
  _pidSetpoint : ℚ
  _lidState : LidState
  _enabled : Bool
  _lastComputeMs : Nat
  deriving DecidableEq, Repr

namespace PidController

/-- `PidController::begin(float kp, float ki, float kd)`; `now` is `millis()`. -/
def begin (c : PidController) (kp ki kd : ℚ) (now : Nat) : PidController :=
  { c with
    _kp := kp, _ki := ki, _kd := kd,
    _pidInput := 0, _pidOutput := 0, _pidSetpoint := 0,
    _lidState := LidState.CLOSED, _enabled := true,
    _lastComputeMs := now }

/-- `PidController::updateLidState`. -/
def updateLidState (c : PidController) (currentTemp setpoint : ℚ) : PidController :=
  if setpoint ≤ 0 then c
  else
    let dropThreshold := setpoint * (1 - LID_OPEN_DROP_PCT / 100)
    let recoverThreshold := setpoint * (1 - LID_OPEN_RECOVER_PCT / 100)
    match c._lidState with
    | LidState.CLOSED =>
        if currentTemp < dropThreshold then { c with _lidState := LidState.OPEN } else c
    | LidState.OPEN =>
        if currentTemp ≥ recoverThreshold then { c with _lidState := LidState.CLOSED } else c

/-- The two clamping statements after `_pid->Compute()`. -/
def clampOutput (c : PidController) : PidController :=
  let c1 := if c._pidOutput < PID_OUTPUT_MIN then { c with _pidOutput := PID_OUTPUT_MIN } else c
  if c1._pidOutput > PID_OUTPUT_MAX then { c1 with _pidOutput := PID_OUTPUT_MAX } else c1

/-- `PidController::compute`. `algoOut` is the content of `_pidOutput` after the external
`_pid->Compute()` call (the old content when QuickPID skips the step). Returns the
new object state and the returned float. -/
def compute (c : PidController) (currentTemp setpoint algoOut : ℚ) : PidController × ℚ :=
  if !c._enabled then
    ({ c with _pidOutput := 0 }, 0)
  else
    let c1 := c.updateLidState currentTemp setpoint
    if c1._lidState = LidState.OPEN then
      ({ c1 with _pidOutput := 0 }, 0)
    else
      let c2 := { c1 with _pidInput := currentTemp, _pidSetpoint := setpoint }
      let c3 := { c2 with _pidOutput := algoOut }
      let c4 := c3.clampOutput
      (c4, c4._pidOutput)

/-- `PidController::getOutput`. -/
def getOutput (c : PidController) : ℚ := c._pidOutput

/-- `PidController::setTunings`. -/
def setTunings (c : PidController) (kp ki kd : ℚ) : PidController :=
  { c with _kp := kp, _ki := ki, _kd := kd }

/-- `PidController::resetIntegrator`: only QuickPID-internal state is touched. -/
def resetIntegrator (c : PidController) : PidController := c

/-- `PidController::isLidOpen`. -/
def isLidOpen (c : PidController) : Bool := c._lidState = LidState.OPEN

/-- `PidController::setEnabled`. -/
def setEnabled (c : PidController) (enabled : Bool) : PidController :=
  let c1 := { c with _enabled := enabled }
  if !enabled then { c1 with _pidOutput := 0 } else c1

/-- `PidController::isEnabled`. -/
def isEnabled (c : PidController) : Bool := c._enabled

end PidController

/-- One public mutating call on a `PidController`. -/
inductive PidCall where
  | compute (currentTemp setpoint algoOut : ℚ)
  | setTunings (kp ki kd : ℚ)
  | resetIntegrator
  | setEnabled (enabled : Bool)

/-- State after one call. -/
def PidCall.exec (c : PidController) : PidCall → PidController
  | PidCall.compute t s a => (c.compute t s a).1
  | PidCall.setTunings kp ki kd => c.setTunings kp ki kd
  | PidCall.resetIntegrator => c.resetIntegrator
  | PidCall.setEnabled e => c.setEnabled e

/-- State after a sequence of calls, first call first. -/
def pidRun (c : PidController) (calls : List PidCall) : PidController :=
  calls.foldl PidCall.exec c

/-- Suspension invariant: lid open or disabled implies a zero output. -/
def PidController.Suspended (c : PidController) : Prop :=
  (c.isLidOpen = true ∨ c.isEnabled = false) → c.getOutput = 0

/-! ## split_range.h -/

/-- Result of `splitRange` (`struct SplitRangeOutput`). -/
structure SplitRangeOutput where
  fanPercent : ℚ
  damperPercent : ℚ
  deriving DecidableEq, Repr

/-- `splitRange`. `strcmp(fanMode, s) == 0` is string equality. The quotient is the
field division of `ℚ`; `splitRangeDivisor` gives the divisor the call divides by. -/
def splitRange (pidOutput : ℚ) (fanMode : String) (fanOnThreshold : ℚ) : SplitRangeOutput :=
  if fanMode = "fan_only" then
    { fanPercent := pidOutput, damperPercent := 100 }
  else if fanMode = "damper_primary" then
    let dpThreshold := max fanOnThreshold 50
    if pidOutput > dpThreshold then
      { fanPercent := (pidOutput - dpThreshold) / (100 - dpThreshold) * 100,
        damperPercent := 100 }
    else
      { fanPercent := 0, damperPercent := pidOutput }
  else
    if pidOutput > fanOnThreshold then
      { fanPercent := (pidOutput - fanOnThreshold) / (100 - fanOnThreshold) * 100,
        damperPercent := pidOutput }
    else
      { fanPercent := 0, damperPercent := pidOutput }

/-- Divisor of the division that `splitRange` executes on the same arguments, following
the same branches; `none` when the call executes no division. -/
def splitRangeDivisor (pidOutput : ℚ) (fanMode : String) (fanOnThreshold : ℚ) : Option ℚ :=
  if fanMode = "fan_only" then
    none
  else if fanMode = "damper_primary" then
    let dpThreshold := max fanOnThreshold 50
    if pidOutput > dpThreshold then some (100 - dpThreshold) else none
  else
    if pidOutput > fanOnThreshold then some (100 - fanOnThreshold) else none

/-! ## display/graph_history.h / graph_history.cpp -/

def GRAPH_HISTORY_SIZE : Nat := 240

/-- A single graph data slot (`struct GraphSlot`). -/
structure GraphSlot where
  pit : ℚ
  meat1 : ℚ
  meat2 : ℚ
  setpoint : ℚ
  pitValid : Bool
  meat1Valid : Bool
  meat2Valid : Bool
  deriving DecidableEq, Repr

/-- Data members of `class GraphHistory`. `_buffer` has `GRAPH_HISTORY_SIZE` elements:
the operations below check every index they use against that size and return `none`
on an index outside the array, so the values of `_buffer` at larger arguments are
never read or written. -/
structure GraphHistory where
  _buffer : Nat → GraphSlot
  _count : Nat

namespace GraphHistory

/-- `GraphHistory::GraphHistory()`: only `_count` is initialised; `uninit` is the
indeterminate content of the array. -/
def ctor (uninit : Nat → GraphSlot) : GraphHistory :=
  { _buffer := uninit, _count := 0 }

/-- `GraphHistory::getCount`. -/
def getCount (h : GraphHistory) : Nat := h._count

/-- `GraphHistory::clear`. -/
def clear (h : GraphHistory) : GraphHistory := { h with _count := 0 }

/-- The `static const GraphSlot empty` of `getSlot`. -/
def emptySlot : GraphSlot :=
  { pit := 0, meat1 := 0, meat2 := 0, setpoint := 0,
    pitValid := false, meat1Valid := false, meat2Valid := false }

/-- `GraphHistory::getSlot`; `none` is a read outside the array. -/
def getSlot (h : GraphHistory) (index : Nat) : Option GraphSlot :=
  if index ≥ h._count then some emptySlot
  else if index < GRAPH_HISTORY_SIZE then some (h._buffer index)
  else none

/-- `GraphHistory::mergeValues`: the returned float and the flag stored through
`outValid`. -/
def mergeValues (a : ℚ) (aValid : Bool) (b : ℚ) (bValid : Bool) : ℚ × Bool :=
  if aValid && bValid then ((a + b) * (1 / 2), true)
  else if aValid then (a, true)
  else if bValid then (b, true)
  else (0, false)

/-- Body of the `if (i + 1 < _count)` branch of the loop in `condense`. The references
`a = _buffer[i]`, `b = _buffer[i + 1]` and `out = _buffer[dst]` may alias, so every
statement reads the array as left by the statements before it. In each call of
`mergeValues` the arguments are read first, then the flag is stored through
`outValid`, then the result is assigned. -/
def condensePair (buf : Nat → GraphSlot) (i dst : Nat) : Nat → GraphSlot :=
  let r1 := mergeValues (buf i).pit (buf i).pitValid (buf (i + 1)).pit (buf (i + 1)).pitValid
  let buf1 := Function.update buf dst { buf dst with pitValid := r1.2 }
  let buf2 := Function.update buf1 dst { buf1 dst with pit := r1.1 }
  let r2 := mergeValues (buf2 i).meat1 (buf2 i).meat1Valid
              (buf2 (i + 1)).meat1 (buf2 (i + 1)).meat1Valid
  let buf3 := Function.update buf2 dst { buf2 dst with meat1Valid := r2.2 }
  let buf4 := Function.update buf3 dst { buf3 dst with meat1 := r2.1 }
  let r3 := mergeValues (buf4 i).meat2 (buf4 i).meat2Valid
              (buf4 (i + 1)).meat2 (buf4 (i + 1)).meat2Valid
  let buf5 := Function.update buf4 dst { buf4 dst with meat2Valid := r3.2 }
  let buf6 := Function.update buf5 dst { buf5 dst with meat2 := r3.1 }
  Function.update buf6 dst
    { buf6 dst with setpoint := ((buf6 i).setpoint + (buf6 (i + 1)).setpoint) * (1 / 2) }

/-- The `for` loop of `condense` from loop state `(i, dst)`; returns the array and the
final `dst`. Every iteration accesses `_buffer[i]`, so an execution in which the
`uint16_t` increment `i += 2` would wrap has left the array before that (result
`none`); hence `i` is an unbounded natural number here. -/
def condenseLoop (count : Nat) (buf : Nat → GraphSlot) (i dst : Nat) :
    Option ((Nat → GraphSlot) × Nat) :=
  if i < count then
    if i + 1 < count then
      if i + 1 < GRAPH_HISTORY_SIZE ∧ dst < GRAPH_HISTORY_SIZE then
        condenseLoop count (condensePair buf i dst) (i + 2) (dst + 1)
      else none
    else
      if i < GRAPH_HISTORY_SIZE ∧ dst < GRAPH_HISTORY_SIZE then
        condenseLoop count (Function.update buf dst (buf i)) (i + 2) (dst + 1)
      else none
  else some (buf, dst)
termination_by count - i
decreasing_by all_goals omega

/-- `GraphHistory::condense`. -/
def condense (h : GraphHistory) : Option GraphHistory :=
  (condenseLoop h._count h._buffer 0 0).map fun r => { _buffer := r.1, _count := r.2 }

/-- `GraphHistory::addPoint`; `_count++` is `uint16_t` arithmetic. -/
def addPoint (h : GraphHistory) (pit meat1 meat2 setpoint : ℚ)
    (pitDisc meat1Disc meat2Disc : Bool) : Option GraphHistory :=
  (if h._count ≥ GRAPH_HISTORY_SIZE then h.condense else some h).bind fun h1 =>
    if h1._count < GRAPH_HISTORY_SIZE then
      some
        { _buffer := Function.update h1._buffer h1._count
            { pit := pit, meat1 := meat1, meat2 := meat2, setpoint := setpoint,
              pitValid := !pitDisc, meat1Valid := !meat1Disc, meat2Valid := !meat2Disc },
          _count := (h1._count + 1) % 2 ^ 16 }
    else none

end GraphHistory

/-- Index of the array element that `addPoint` writes the new point to: the value of
`_count` at the statement `GraphSlot& slot = _buffer[_count]`, after the conditional
call of `condense`. -/
def GraphHistory.addPointWriteIndex (h : GraphHistory) : Option Nat :=
  (if h._count ≥ GRAPH_HISTORY_SIZE then h.condense else some h).map fun h1 => h1._count

/-- One public mutating call on a `GraphHistory`. -/
inductive GraphCall where
  | addPoint (pit meat1 meat2 setpoint : ℚ) (pitDisc meat1Disc meat2Disc : Bool)
  | clear

/-- State after one call; `none` when the call indexes outside the array. -/
def GraphCall.exec (h : GraphHistory) : GraphCall → Option GraphHistory
  | GraphCall.addPoint p m1 m2 sp pd m1d m2d => h.addPoint p m1 m2 sp pd m1d m2d
  | GraphCall.clear => some h.clear

/-- State after a sequence of calls, first call first. -/
def graphRun (h : GraphHistory) : List GraphCall → Option GraphHistory
  | [] => some h
  | c :: cs => (c.exec h).bind fun h1 => graphRun h1 cs

/-- Channel merge rule in the words of the specification: both valid gives the mean,
valid; exactly one valid gives that value, valid; neither gives 0, invalid. -/
def specMergeChannel (a : ℚ) (aValid : Bool) (b : ℚ) (bValid : Bool) : ℚ × Bool :=
  match aValid, bValid with
  | true, true => ((a + b) / 2, true)
  | true, false => (a, true)
  | false, true => (b, true)
  | false, false => (0, false)

/-- Merge of a pair of slots in the words of the specification: each probe channel by
`specMergeChannel`, the setpoint the arithmetic mean of the two setpoints. -/
def specMergeSlot (x y : GraphSlot) : GraphSlot :=
  { pit := (specMergeChannel x.pit x.pitValid y.pit y.pitValid).1,
    meat1 := (specMergeChannel x.meat1 x.meat1Valid y.meat1 y.meat1Valid).1,
    meat2 := (specMergeChannel x.meat2 x.meat2Valid y.meat2 y.meat2Valid).1,
    setpoint := (x.setpoint + y.setpoint) / 2,
    pitValid := (specMergeChannel x.pit x.pitValid y.pit y.pitValid).2,
    meat1Valid := (specMergeChannel x.meat1 x.meat1Valid y.meat1 y.meat1Valid).2,
    meat2Valid := (specMergeChannel x.meat2 x.meat2Valid y.meat2 y.meat2Valid).2 }

/-- Content of the array after the loop of `condense`, as a function of the content
before it: slots below `k` kept, complete pairs merged, an odd last slot copied. -/
def CondensedFrom (count k : Nat) (buf buf' : Nat → GraphSlot) : Prop :=
  (∀ j, j < k → buf' j = buf j) ∧
  (∀ j, k ≤ j → 2 * j + 1 < count →
    buf' j = specMergeSlot (buf (2 * j)) (buf (2 * j + 1))) ∧
  (∀ j, k ≤ j → 2 * j + 1 = count → buf' j = buf (2 * j)) ∧
  (∀ j, k ≤ j → count ≤ 2 * j → buf' j = buf j)

/-! ## config.h (temperature acquisition) -/

def REFERENCE_RESISTANCE : ℚ := 10000
def ADC_MAX_VALUE : ℚ := 32767
def THERM_A : ℚ := 7.3431401e-04
def THERM_B : ℚ := 2.1574370e-04
def THERM_C : ℚ := 9.5156860e-08
def TEMP_SAMPLE_INTERVAL_MS : Nat := 1000
def TEMP_EMA_ALPHA : ℚ := 0.2
def ERROR_PROBE_OPEN_THRESHOLD : Int := 32000
def ERROR_PROBE_SHORT_THRESHOLD : Int := 100
def ADC_CHANNEL_PIT : Nat := 0
def ADC_CHANNEL_MEAT1 : Nat := 1
def ADC_CHANNEL_MEAT2 : Nat := 2

/-! ## units.h -/

/-- `celsiusToFahrenheit`. -/
def celsiusToFahrenheit (c : ℚ) : ℚ := c * 9 / 5 + 32

/-! ## temp_manager.h / temp_manager.cpp -/

def NUM_PROBES : Nat := 3

/-- Probe status (`enum class ProbeStatus`). -/
inductive ProbeStatus where
  | OK
  | OPEN_CIRCUIT
  | SHORT_CIRCUIT
  deriving DecidableEq, Repr

/-- Per-probe calibration (`struct ProbeConfig`) with its default member initialisers. -/
structure ProbeConfig where
  a : ℚ := THERM_A
  b : ℚ := THERM_B
  c : ℚ := THERM_C
  offset : ℚ := 0
  deriving DecidableEq, Repr

/-- Data members of `class TempManager`. The per-probe arrays of `NUM_PROBES` elements
are functions of the probe index; every index used below is below `NUM_PROBES`
(the loop bound of `update`, the guards of the accessors). -/
structure TempManager where
  _rawADC : Nat → Int
  _filteredTempC : Nat → ℚ
  _status : Nat → ProbeStatus
  _probeConfig : Nat → ProbeConfig
  _emaAlpha : ℚ
  _firstReading : Nat → Bool
  _useFahrenheit : Bool
  _lastSampleMs : Nat

namespace TempManager

/-- `TempManager::_adcChannels`. -/
def _adcChannels : Nat → Nat
  | 0 => ADC_CHANNEL_PIT
  | 1 => ADC_CHANNEL_MEAT1
  | _ => ADC_CHANNEL_MEAT2

/-- `TempManager::TempManager()`. -/
def ctor : TempManager :=
  { _rawADC := fun _ => 0,
    _filteredTempC := fun _ => 0,
    _status := fun _ => ProbeStatus.OPEN_CIRCUIT,
    _probeConfig := fun _ => {},
    _emaAlpha := TEMP_EMA_ALPHA,
    _firstReading := fun _ => true,
    _useFahrenheit := true,
    _lastSampleMs := 0 }

/-- `TempManager::adcToResistance`. -/
def adcToResistance (raw : Int) : ℚ :=
  if raw ≤ 0 then 0
  else REFERENCE_RESISTANCE * (ADC_MAX_VALUE / (raw : ℚ) - 1)

/-- `TempManager::resistanceToTempC`; `logf` is the libm function. -/
def resistanceToTempC (logf : ℚ → ℚ) (resistance : ℚ) (cfg : ProbeConfig) : ℚ :=
  let lnR := logf resistance
  let lnR3 := lnR * lnR * lnR
  let invT := cfg.a + cfg.b * lnR + cfg.c * lnR3
  if invT = 0 then 0
  else
    let tempK := 1 / invT
    let tempC := tempK - 273.15
    tempC

/-- Body of the `for` loop of `update` for probe `i`; `raw` is the value returned by
`_ads.readADC_SingleEnded(_adcChannels[i])`. -/
def sampleProbe (logf : ℚ → ℚ) (m : TempManager) (i : Nat) (raw : Int) : TempManager :=
  let m1 := { m with _rawADC := Function.update m._rawADC i raw }
  if raw ≥ ERROR_PROBE_OPEN_THRESHOLD then
    { m1 with
      _status := Function.update m1._status i ProbeStatus.OPEN_CIRCUIT,
      _firstReading := Function.update m1._firstReading i true }
  else if raw ≤ ERROR_PROBE_SHORT_THRESHOLD then
    { m1 with
      _status := Function.update m1._status i ProbeStatus.SHORT_CIRCUIT,
      _firstReading := Function.update m1._firstReading i true }
  else
    let resistance := adcToResistance raw
    if resistance ≤ 0 then
      { m1 with
        _status := Function.update m1._status i ProbeStatus.SHORT_CIRCUIT,
        _firstReading := Function.update m1._firstReading i true }
    else
      let tempC0 := resistanceToTempC logf resistance (m1._probeConfig i)
      let tempC := tempC0 + (m1._probeConfig i).offset
      let m2 :=
        if m1._firstReading i then
          { m1 with
            _filteredTempC := Function.update m1._filteredTempC i tempC,
            _firstReading := Function.update m1._firstReading i false }
        else
          { m1 with
            _filteredTempC := Function.update m1._filteredTempC i
              (m1._emaAlpha * tempC + (1 - m1._emaAlpha) * m1._filteredTempC i) }
      { m2 with _status := Function.update m2._status i ProbeStatus.OK }

/-- `TempManager::update`. `now` is `millis()`, `readADC ch` the sample the ADS1115
driver returns for channel `ch` at this call; `now - _lastSampleMs` is 32-bit
`unsigned long` arithmetic. -/
def update (logf : ℚ → ℚ) (m : TempManager) (now : Nat) (readADC : Nat → Int) :
    TempManager :=
  if (now + 2 ^ 32 - m._lastSampleMs) % 2 ^ 32 < TEMP_SAMPLE_INTERVAL_MS then m
  else
    (List.range NUM_PROBES).foldl
      (fun acc i => sampleProbe logf acc i (readADC (_adcChannels i)))
      { m with _lastSampleMs := now }

/-- `TempManager::getTempC`. -/
def getTempC (m : TempManager) (probe : Nat) : ℚ :=
  if probe ≥ NUM_PROBES then 0
  else if m._status probe ≠ ProbeStatus.OK then 0
  else m._filteredTempC probe

/-- `TempManager::getTemp`. -/
def getTemp (m : TempManager) (probe : Nat) : ℚ :=
  if probe ≥ NUM_PROBES then 0
  else if m._status probe ≠ ProbeStatus.OK then 0
  else if m._useFahrenheit then celsiusToFahrenheit (m._filteredTempC probe)
  else m._filteredTempC probe

/-- `TempManager::isConnected`. -/
def isConnected (m : TempManager) (probe : Nat) : Bool :=
  if probe ≥ NUM_PROBES then false
  else m._status probe = ProbeStatus.OK

/-- `TempManager::getStatus`. -/
def getStatus (m : TempManager) (probe : Nat) : ProbeStatus :=
  if probe ≥ NUM_PROBES then ProbeStatus.OPEN_CIRCUIT
  else m._status probe

end TempManager

/-- The sampling gate of `update` lets the call at time `now` through (the negation of
`now - _lastSampleMs < TEMP_SAMPLE_INTERVAL_MS`). -/
def TempManager.isDue (m : TempManager) (now : Nat) : Prop :=
  ¬ (now + 2 ^ 32 - m._lastSampleMs) % 2 ^ 32 < TEMP_SAMPLE_INTERVAL_MS

instance (m : TempManager) (now : Nat) : Decidable (m.isDue now) :=
  inferInstanceAs
    (Decidable (¬ (now + 2 ^ 32 - m._lastSampleMs) % 2 ^ 32 < TEMP_SAMPLE_INTERVAL_MS))

/-- A raw sample that `update` treats as a fault: the conditions of its three branches
that end in `continue` (open circuit, short circuit, non-positive resistance). -/
def TempManager.isFaultRaw (raw : Int) : Prop :=
  raw ≥ ERROR_PROBE_OPEN_THRESHOLD ∨ raw ≤ ERROR_PROBE_SHORT_THRESHOLD ∨
    TempManager.adcToResistance raw ≤ 0

instance (raw : Int) : Decidable (TempManager.isFaultRaw raw) :=
  inferInstanceAs
    (Decidable (raw ≥ ERROR_PROBE_OPEN_THRESHOLD ∨ raw ≤ ERROR_PROBE_SHORT_THRESHOLD ∨
      TempManager.adcToResistance raw ≤ 0))

/-- The reading that enters the EMA filter for probe `i` and sample `raw`: the
Steinhart–Hart result plus the probe's calibration offset. -/
def TempManager.convertedReading (logf : ℚ → ℚ) (m : TempManager) (i : Nat) (raw : Int) : ℚ :=
  TempManager.resistanceToTempC logf (TempManager.adcToResistance raw) (m._probeConfig i) +
    (m._probeConfig i).offset

/-- Two states hold the same data for probe `i` and the same shared filter settings. -/
def TempManager.AgreeAt (i : Nat) (m m' : TempManager) : Prop :=
  m._rawADC i = m'._rawADC i ∧ m._filteredTempC i = m'._filteredTempC i ∧
  m._status i = m'._status i ∧ m._firstReading i = m'._firstReading i ∧
  m._probeConfig = m'._probeConfig ∧ m._emaAlpha = m'._emaAlpha

/-- State after a sequence of `update` calls, first call first; each call is given as
`(now, readADC)`. -/
def updateRun (logf : ℚ → ℚ) (m : TempManager) (calls : List (Nat × (Nat → Int))) :
    TempManager :=
  calls.foldl (fun acc c => acc.update logf c.1 c.2) m

/-- The drop and recover thresholds that `updateLidState` computes for the given
setpoint, following its first statement: `none` when it returns at
`if (setpoint <= 0.0f) return;`, before any threshold arithmetic. -/
def PidController.lidThresholds (setpoint : ℚ) : Option (ℚ × ℚ) :=
  if setpoint ≤ 0 then none
  else some (setpoint * (1 - LID_OPEN_DROP_PCT / 100),
    setpoint * (1 - LID_OPEN_RECOVER_PCT / 100))

/-- Divisor of the division `1.0f / invT` that `resistanceToTempC` executes on the same
arguments; `none` when it returns at `if (invT == 0.0f) return 0.0f;`, before the
division. -/
def TempManager.resistanceToTempCDivisor (logf : ℚ → ℚ) (resistance : ℚ)
    (cfg : ProbeConfig) : Option ℚ :=
  let lnR := logf resistance
  let lnR3 := lnR * lnR * lnR
  let invT := cfg.a + cfg.b * lnR + cfg.c * lnR3
  if invT = 0 then none else some invT

/-- The slot a call appends: for `addPoint` the record its assignments to `slot` build,
for `clear` none. -/
def GraphCall.slot : GraphCall → Option GraphSlot
  | GraphCall.addPoint p m1 m2 sp pd m1d m2d =>
      some { pit := p, meat1 := m1, meat2 := m2, setpoint := sp,
             pitValid := !pd, meat1Valid := !m1d, meat2Valid := !m2d }
  | GraphCall.clear => none

/-- Slot `s` lies within per-channel bounds, `lo` and `hi` carrying the lower and upper
bound of each channel in their four value fields: every probe value flagged valid is
between its bounds, and so is the setpoint. -/
def GraphSlot.Within (lo hi s : GraphSlot) : Prop :=
  (s.pitValid = true → lo.pit ≤ s.pit ∧ s.pit ≤ hi.pit) ∧
  (s.meat1Valid = true → lo.meat1 ≤ s.meat1 ∧ s.meat1 ≤ hi.meat1) ∧
  (s.meat2Valid = true → lo.meat2 ≤ s.meat2 ∧ s.meat2 ≤ hi.meat2) ∧
  lo.setpoint ≤ s.setpoint ∧ s.setpoint ≤ hi.setpoint

/-! ## Single-precision arithmetic (IEEE 754 binary32, round to nearest, ties to even) -/

/-- Round to the nearest integer, a tie going to the even one. -/
def roundHalfEven (y : ℚ) : ℤ :=
  if y - ⌊y⌋ < 1 / 2 then ⌊y⌋
  else if 1 / 2 < y - ⌊y⌋ then ⌊y⌋ + 1
  else if ⌊y⌋ % 2 = 0 then ⌊y⌋ else ⌊y⌋ + 1

/-- Spacing of the binary32 values around `x`: 2^(e − 23) for 2^e ≤ |x| < 2^(e+1) (a
24-bit significand), and 2^-149 throughout the subnormal range |x| < 2^-126. -/
def f32Quantum (x : ℚ) : ℚ := (2 : ℚ) ^ (max (Int.log 2 |x|) (-126) - 23)

/-- The binary32 value a `float` operation with exact result `x` returns: the multiple
of the spacing nearest to `x`, ties to the even significand. Results of magnitude
2^128 and above (infinities in C) and NaN are outside the model. -/
def f32Round (x : ℚ) : ℚ := (roundHalfEven (x / f32Quantum x) : ℚ) * f32Quantum x

/-- `splitRange` in single precision: each of the four `float` operations of
`(pidOutput - threshold) / (100.0f - threshold) * 100.0f` is rounded by `f32Round`;
comparisons, `fmaxf` and copies are exact (no operation is evaluated in a wider
format, as on the ESP32 target). The arguments are `float` values, that is rationals
fixed by `f32Round`. -/
def splitRangeF32 (pidOutput : ℚ) (fanMode : String) (fanOnThreshold : ℚ) : SplitRangeOutput :=
  if fanMode = "fan_only" then
    { fanPercent := pidOutput, damperPercent := 100 }
  else if fanMode = "damper_primary" then
    let dpThreshold := max fanOnThreshold 50
    if pidOutput > dpThreshold then
      { fanPercent :=
          f32Round (f32Round (f32Round (pidOutput - dpThreshold) /
            f32Round (100 - dpThreshold)) * 100),
        damperPercent := 100 }
    else
      { fanPercent := 0, damperPercent := pidOutput }
  else
    if pidOutput > fanOnThreshold then
      { fanPercent :=
          f32Round (f32Round (f32Round (pidOutput - fanOnThreshold) /
            f32Round (100 - fanOnThreshold)) * 100),
        damperPercent := pidOutput }
    else
      { fanPercent := 0, damperPercent := pidOutput }

end Pitclaw

/-! ## Theorems: PidController -/

namespace Pitclaw

theorem PidController.clampOutput_range (c : PidController) :
    0 ≤ c.clampOutput._pidOutput ∧ c.clampOutput._pidOutput ≤ 100 := by
  unfold PidController.clampOutput
  simp only [PID_OUTPUT_MIN, PID_OUTPUT_MAX]
  by_cases h1 : c._pidOutput < 0
  · norm_num [h1]
  · by_cases h2 : c._pidOutput > 100
    · norm_num [h1, h2]
    · simp only [h1, h2, if_false]
      exact ⟨not_lt.mp h1, not_lt.mp h2⟩

theorem PidController.clampOutput_lidState (c : PidController) :
    c.clampOutput._lidState = c._lidState := by
  unfold PidController.clampOutput
  dsimp only
  split_ifs <;> rfl

theorem PidController.clampOutput_enabled (c : PidController) :
    c.clampOutput._enabled = c._enabled := by
  unfold PidController.clampOutput
  dsimp only
  split_ifs <;> rfl

theorem PidController.updateLidState_enabled (c : PidController) (t s : ℚ) :
    (c.updateLidState t s)._enabled = c._enabled := by
  unfold PidController.updateLidState
  dsimp only
  split_ifs <;> first | rfl | (split <;> rfl)

theorem PidController.compute_snd_eq (c : PidController) (t s a : ℚ) :
    (c.compute t s a).2 = (c.compute t s a).1._pidOutput := by
  unfold PidController.compute
  dsimp only
  split_ifs <;> rfl

theorem PidController.compute_range (c : PidController) (t s a : ℚ) :
    0 ≤ (c.compute t s a).1._pidOutput ∧ (c.compute t s a).1._pidOutput ≤ 100 := by
  unfold PidController.compute
  dsimp only
  split_ifs
  · norm_num
  · norm_num
  · exact PidController.clampOutput_range _

theorem PidCall.exec_range (c : PidController) (call : PidCall)
    (h : 0 ≤ c._pidOutput ∧ c._pidOutput ≤ 100) :
    0 ≤ (call.exec c)._pidOutput ∧ (call.exec c)._pidOutput ≤ 100 := by
  cases call with
  | compute t s a => exact PidController.compute_range c t s a
  | setTunings kp ki kd => exact h
  | resetIntegrator => exact h
  | setEnabled e =>
      cases e
      · norm_num [PidCall.exec, PidController.setEnabled]
      · simpa [PidCall.exec, PidController.setEnabled] using h

theorem pidRun_range (calls : List PidCall) (c : PidController)
    (h : 0 ≤ c._pidOutput ∧ c._pidOutput ≤ 100) :
    0 ≤ (pidRun c calls)._pidOutput ∧ (pidRun c calls)._pidOutput ≤ 100 := by
  induction calls generalizing c with
  | nil => exact h
  | cons call rest ih => exact ih (call.exec c) (PidCall.exec_range c call h)

/-- C1: in every state reached from `begin` by a sequence of `compute`, `setTunings`,
`resetIntegrator` and `setEnabled` calls (the value left by the control-algorithm step
being arbitrary), `getOutput` lies in [0,100], and so does every value `compute`
returns from such a state. -/
theorem pid_output_always_in_range (c0 : PidController) (kp ki kd : ℚ) (now : Nat)
    (calls : List PidCall) :
    (0 ≤ (pidRun (c0.begin kp ki kd now) calls).getOutput ∧
      (pidRun (c0.begin kp ki kd now) calls).getOutput ≤ 100) ∧
    ∀ currentTemp setpoint algoOut : ℚ,
      0 ≤ ((pidRun (c0.begin kp ki kd now) calls).compute currentTemp setpoint algoOut).2 ∧
      ((pidRun (c0.begin kp ki kd now) calls).compute currentTemp setpoint algoOut).2 ≤ 100 := by
  refine ⟨?_, ?_⟩
  · exact pidRun_range calls _ (by norm_num [PidController.begin])
  · intro t s a
    rw [PidController.compute_snd_eq]
    exact PidController.compute_range _ t s a

theorem PidController.compute_suspended (c : PidController) (t s a : ℚ) :
    (c.compute t s a).1.Suspended := by
  unfold PidController.Suspended PidController.compute
  dsimp only
  cases he : c._enabled
  · intro _; rfl
  · by_cases hl : (c.updateLidState t s)._lidState = LidState.OPEN
    · intro _
      simp only [Bool.not_true, Bool.false_eq_true, if_false, hl, if_true]
      rfl
    · simp only [Bool.not_true, Bool.false_eq_true, if_false, hl]
      intro h
      rcases h with h | h
      · simp [PidController.isLidOpen, PidController.clampOutput_lidState, hl] at h
      · simp [PidController.isEnabled, PidController.clampOutput_enabled,
          PidController.updateLidState_enabled, he] at h

theorem PidCall.exec_suspended (c : PidController) (call : PidCall) (h : c.Suspended) :
    (call.exec c).Suspended := by
  cases call with
  | compute t s a => exact PidController.compute_suspended c t s a
  | setTunings kp ki kd => exact h
  | resetIntegrator => exact h
  | setEnabled e =>
      cases e
      · intro _
        simp [PidCall.exec, PidController.setEnabled, PidController.getOutput]
      · intro h1
        have h2 : c.isLidOpen = true := by
          simpa [PidCall.exec, PidController.setEnabled, PidController.isLidOpen,
            PidController.isEnabled] using h1
        simpa [PidCall.exec, PidController.setEnabled, PidController.getOutput]
          using h (Or.inl h2)

theorem pidRun_suspended (calls : List PidCall) (c : PidController) (h : c.Suspended) :
    (pidRun c calls).Suspended := by
  induction calls generalizing c with
  | nil => exact h
  | cons call rest ih => exact ih (call.exec c) (PidCall.exec_suspended c call h)

/-- C2: in every state reached from `begin` by a sequence of `compute`, `setTunings`,
`resetIntegrator` and `setEnabled` calls, whenever `isLidOpen()` is true or
`isEnabled()` is false, `getOutput()` is exactly 0. -/
theorem pid_suspension_invariant (c0 : PidController) (kp ki kd : ℚ) (now : Nat)
    (calls : List PidCall) :
    ((pidRun (c0.begin kp ki kd now) calls).isLidOpen = true ∨
      (pidRun (c0.begin kp ki kd now) calls).isEnabled = false) →
    (pidRun (c0.begin kp ki kd now) calls).getOutput = 0 := by
  have h := pidRun_suspended calls (c0.begin kp ki kd now)
    (by intro _; simp [PidController.begin, PidController.getOutput])
  exact h

/-- Instance of C2: after `begin` and `setEnabled(false)` the output is 0. -/
theorem pid_suspension_invariant_witness :
    (pidRun
      (({ _kp := 0, _ki := 0, _kd := 0, _pidInput := 7, _pidOutput := 7, _pidSetpoint := 7,
          _lidState := LidState.OPEN, _enabled := false,
          _lastComputeMs := 0 } : PidController).begin 4 0.02 5 1000)
      [PidCall.compute 230 225 50, PidCall.setEnabled false]).getOutput = 0 :=
  pid_suspension_invariant _ 4 0.02 5 1000
    [PidCall.compute 230 225 50, PidCall.setEnabled false] (Or.inr rfl)

theorem PidController.compute_lidState_of_enabled (c : PidController) (t s a : ℚ)
    (h : c._enabled = true) :
    (c.compute t s a).1._lidState = (c.updateLidState t s)._lidState := by
  unfold PidController.compute
  dsimp only
  simp only [h, Bool.not_true, Bool.false_eq_true, if_false]
  split_ifs
  · rfl
  · exact PidController.clampOutput_lidState _

theorem PidController.updateLidState_open_iff (c : PidController) (t s : ℚ) (hs : 0 < s) :
    (c.updateLidState t s)._lidState = LidState.OPEN ↔
      (c._lidState = LidState.CLOSED ∧ t < s * 0.94) ∨
      (c._lidState = LidState.OPEN ∧ t < s * 0.98) := by
  have e1 : s * (1 - LID_OPEN_DROP_PCT / 100) = s * 0.94 := by
    norm_num [LID_OPEN_DROP_PCT]
  have e2 : s * (1 - LID_OPEN_RECOVER_PCT / 100) = s * 0.98 := by
    norm_num [LID_OPEN_RECOVER_PCT]
  unfold PidController.updateLidState
  dsimp only
  rw [e1, e2, if_neg (not_le.mpr hs)]
  cases hl : c._lidState
  · dsimp only
    by_cases h : t < s * 0.94
    · simp [h]
    · simp [h, hl]
  · dsimp only
    by_cases h : t ≥ s * 0.98
    · simp [h, not_lt.mpr h]
    · simp [h, hl, not_le.mp h]

/-- C3: for an enabled controller and a setpoint > 0, one `compute` call leaves the lid
OPEN exactly when (it was CLOSED and currentTemp < setpoint × 0.94) or (it was OPEN
and currentTemp < setpoint × 0.98); an OPEN lid returns to CLOSED exactly when
currentTemp ≥ setpoint × 0.98, and a temperature at 96% of the setpoint keeps an
OPEN lid OPEN. -/
theorem lid_transition_function (c : PidController) (currentTemp setpoint algoOut : ℚ)
    (hen : c.isEnabled = true) (hsp : 0 < setpoint) :
    ((c.compute currentTemp setpoint algoOut).1.isLidOpen = true ↔
      (c._lidState = LidState.CLOSED ∧ currentTemp < setpoint * 0.94) ∨
      (c._lidState = LidState.OPEN ∧ currentTemp < setpoint * 0.98)) ∧
    (c.isLidOpen = true →
      ((c.compute currentTemp setpoint algoOut).1._lidState = LidState.CLOSED ↔
        currentTemp ≥ setpoint * 0.98)) ∧
    (c.isLidOpen = true →
      (c.compute (setpoint * 0.96) setpoint algoOut).1.isLidOpen = true) := by
  have hen1 : c._enabled = true := hen
  have key : ∀ t : ℚ, (c.compute t setpoint algoOut).1._lidState = LidState.OPEN ↔
      (c._lidState = LidState.CLOSED ∧ t < setpoint * 0.94) ∨
      (c._lidState = LidState.OPEN ∧ t < setpoint * 0.98) := by
    intro t
    rw [PidController.compute_lidState_of_enabled c t setpoint algoOut hen1]
    exact PidController.updateLidState_open_iff c t setpoint hsp
  refine ⟨?_, ?_, ?_⟩
  · simpa [PidController.isLidOpen] using key currentTemp
  · intro hopen
    have ho : c._lidState = LidState.OPEN := by
      simpa [PidController.isLidOpen] using hopen
    have hk := key currentTemp
    constructor
    · intro hc
      by_contra hlt
      have : (c.compute currentTemp setpoint algoOut).1._lidState = LidState.OPEN :=
        hk.mpr (Or.inr ⟨ho, not_le.mp hlt⟩)
      rw [hc] at this
      exact LidState.noConfusion this
    · intro hge
      cases hr : (c.compute currentTemp setpoint algoOut).1._lidState
      · rfl
      · rcases hk.mp hr with ⟨hcl, _⟩ | ⟨_, hlt⟩
        · rw [ho] at hcl
          exact LidState.noConfusion hcl
        · exact absurd hge (not_le.mpr hlt)
  · intro hopen
    have ho : c._lidState = LidState.OPEN := by
      simpa [PidController.isLidOpen] using hopen
    have hlt : setpoint * 0.96 < setpoint * 0.98 := by
      apply mul_lt_mul_of_pos_left _ hsp
      norm_num
    simpa [PidController.isLidOpen] using (key (setpoint * 0.96)).mpr (Or.inr ⟨ho, hlt⟩)

/-- Instance of C3: enabled controller, lid OPEN, setpoint 225, temperature 216. -/
theorem lid_transition_function_witness :
    (({ _kp := 4, _ki := 0.02, _kd := 5, _pidInput := 0, _pidOutput := 0,
        _pidSetpoint := 0, _lidState := LidState.OPEN, _enabled := true,
        _lastComputeMs := 0 } : PidController).compute 216 225 50).1.isLidOpen = true := by
  have h := (lid_transition_function
    { _kp := 4, _ki := 0.02, _kd := 5, _pidInput := 0, _pidOutput := 0,
      _pidSetpoint := 0, _lidState := LidState.OPEN, _enabled := true,
      _lastComputeMs := 0 } 216 225 50 rfl (by norm_num)).1
  exact h.mpr (Or.inr ⟨rfl, by norm_num⟩)

/-! ## Theorems: splitRange -/

theorem splitRange_scale_range (p t : ℚ) (h1 : t < p) (h2 : p ≤ 100) :
    0 ≤ (p - t) / (100 - t) * 100 ∧ (p - t) / (100 - t) * 100 ≤ 100 := by
  have hd : 0 < 100 - t := by linarith
  constructor
  · exact mul_nonneg (div_nonneg (by linarith) hd.le) (by norm_num)
  · have h : (p - t) / (100 - t) ≤ 1 := (div_le_one hd).mpr (by linarith)
    linarith

/-- C4: for every mode string, every pidOutput in [0,100] and every fanOnThreshold in
[0,100], fanPercent and damperPercent returned by `splitRange` lie in [0,100], and the
division by 100 − threshold is executed only with a strictly positive divisor. -/
theorem splitRange_output_range (fanMode : String) (pidOutput fanOnThreshold : ℚ)
    (hp : 0 ≤ pidOutput ∧ pidOutput ≤ 100)
    (ht : 0 ≤ fanOnThreshold ∧ fanOnThreshold ≤ 100) :
    (0 ≤ (splitRange pidOutput fanMode fanOnThreshold).fanPercent ∧
      (splitRange pidOutput fanMode fanOnThreshold).fanPercent ≤ 100 ∧
      0 ≤ (splitRange pidOutput fanMode fanOnThreshold).damperPercent ∧
      (splitRange pidOutput fanMode fanOnThreshold).damperPercent ≤ 100) ∧
    ∀ d : ℚ, splitRangeDivisor pidOutput fanMode fanOnThreshold = some d → 0 < d := by
  obtain ⟨hp0, hp1⟩ := hp
  obtain ⟨ht0, ht1⟩ := ht
  unfold splitRange splitRangeDivisor
  dsimp only
  by_cases hm1 : fanMode = "fan_only"
  · simp only [hm1, if_true]
    refine ⟨⟨hp0, hp1, by norm_num, le_refl _⟩, ?_⟩
    intro d hd
    exact Option.noConfusion hd
  · simp only [hm1, if_false]
    by_cases hm2 : fanMode = "damper_primary"
    · simp only [hm2, if_true]
      by_cases hgt : pidOutput > max fanOnThreshold 50
      · simp only [hgt, if_true]
        have hr := splitRange_scale_range pidOutput (max fanOnThreshold 50) hgt hp1
        refine ⟨⟨hr.1, hr.2, by norm_num, le_refl _⟩, ?_⟩
        intro d hd
        have hd1 : 100 - max fanOnThreshold 50 = d := Option.some.inj hd
        have hlt : max fanOnThreshold 50 < 100 := lt_of_lt_of_le hgt hp1
        linarith
      · simp only [hgt, if_false]
        refine ⟨⟨le_refl _, by norm_num, hp0, hp1⟩, ?_⟩
        intro d hd
        exact Option.noConfusion hd
    · simp only [hm2, if_false]
      by_cases hgt : pidOutput > fanOnThreshold
      · simp only [hgt, if_true]
        have hr := splitRange_scale_range pidOutput fanOnThreshold hgt hp1
        refine ⟨⟨hr.1, hr.2, hp0, hp1⟩, ?_⟩
        intro d hd
        have hd1 : 100 - fanOnThreshold = d := Option.some.inj hd
        have hlt : fanOnThreshold < 100 := lt_of_lt_of_le hgt hp1
        linarith
      · simp only [hgt, if_false]
        refine ⟨⟨le_refl _, by norm_num, hp0, hp1⟩, ?_⟩
        intro d hd
        exact Option.noConfusion hd

/-- Instance of C4: mode "damper_primary", pidOutput 80, fanOnThreshold 30. -/
theorem splitRange_output_range_witness :
    (0 ≤ (splitRange 80 "damper_primary" 30).fanPercent ∧
      (splitRange 80 "damper_primary" 30).fanPercent ≤ 100 ∧
      0 ≤ (splitRange 80 "damper_primary" 30).damperPercent ∧
      (splitRange 80 "damper_primary" 30).damperPercent ≤ 100) ∧
    ∀ d : ℚ, splitRangeDivisor 80 "damper_primary" 30 = some d → 0 < d :=
  splitRange_output_range "damper_primary" 80 30 (by norm_num) (by norm_num)

/-! ## Theorems: GraphHistory -/

theorem GraphHistory.mergeValues_eq_spec (a : ℚ) (aValid : Bool) (b : ℚ) (bValid : Bool) :
    GraphHistory.mergeValues a aValid b bValid = specMergeChannel a aValid b bValid := by
  cases aValid <;> cases bValid <;>
    simp [GraphHistory.mergeValues, specMergeChannel, div_eq_mul_inv]

/-- The in-place pair merge writes the merge of slots `i` and `i + 1` to slot `dst`,
whatever the aliasing between the three slots. -/
theorem GraphHistory.condensePair_eq (buf : Nat → GraphSlot) (i dst : Nat) :
    GraphHistory.condensePair buf i dst =
      Function.update buf dst (specMergeSlot (buf i) (buf (i + 1))) := by
  funext j
  unfold GraphHistory.condensePair specMergeSlot
  simp only [GraphHistory.mergeValues_eq_spec]
  by_cases hj : j = dst
  · subst hj
    by_cases hi : i = j
    · subst hi
      simp [Function.update, div_eq_mul_inv]
    · by_cases hi1 : i + 1 = j
      · subst hi1
        simp [Function.update, div_eq_mul_inv]
      · simp [Function.update, hi, hi1, div_eq_mul_inv]
  · simp [Function.update, hj]

theorem GraphHistory.condenseLoop_exit (count : Nat) (buf : Nat → GraphSlot) (i dst : Nat)
    (h : ¬ i < count) : GraphHistory.condenseLoop count buf i dst = some (buf, dst) := by
  rw [GraphHistory.condenseLoop]
  simp only [h, if_false]

theorem GraphHistory.condenseLoop_spec (count : Nat) (hc : count ≤ GRAPH_HISTORY_SIZE)
    (m : Nat) : ∀ (k : Nat) (buf : Nat → GraphSlot),
      2 * k ≤ count + 1 → count + 1 - 2 * k ≤ 2 * m →
      ∃ buf', GraphHistory.condenseLoop count buf (2 * k) k = some (buf', (count + 1) / 2) ∧
        CondensedFrom count k buf buf' := by
  induction m with
  | zero =>
      intro k buf h1 h2
      refine ⟨buf, ?_, ?_⟩
      · rw [GraphHistory.condenseLoop_exit count buf (2 * k) k (by omega)]
        congr 2
        omega
      · refine ⟨fun j _ => rfl, fun j _ _ => ?_, fun j _ _ => ?_, fun j _ _ => rfl⟩
        · omega
        · omega
  | succ m ih =>
      intro k buf h1 h2
      by_cases hlt : 2 * k < count
      · by_cases hp : 2 * k + 1 < count
        · obtain ⟨buf', hrun, hA, hB, hC, hD⟩ :=
            ih (k + 1) (GraphHistory.condensePair buf (2 * k) k) (by omega) (by omega)
          refine ⟨buf', ?_, ?_⟩
          · rw [GraphHistory.condenseLoop]
            rw [if_pos hlt, if_pos hp, if_pos ⟨lt_of_lt_of_le hp hc, by omega⟩]
            exact hrun
          · rw [GraphHistory.condensePair_eq] at hA hB hC hD
            refine ⟨fun j hj => ?_, fun j hj hj2 => ?_, fun j hj hj2 => ?_,
              fun j hj hj2 => ?_⟩
            · rw [hA j (by omega), Function.update_noteq (by omega)]
            · by_cases hjk : j = k
              · subst hjk
                rw [hA j (by omega), Function.update_same]
              · rw [hB j (by omega) hj2, Function.update_noteq (by omega),
                  Function.update_noteq (by omega)]
            · rw [hC j (by omega) hj2, Function.update_noteq (by omega)]
            · rw [hD j (by omega) hj2, Function.update_noteq (by omega)]
        · obtain ⟨buf', hrun, hA, hB, hC, hD⟩ :=
            ih (k + 1) (Function.update buf k (buf (2 * k))) (by omega) (by omega)
          refine ⟨buf', ?_, ?_⟩
          · rw [GraphHistory.condenseLoop]
            rw [if_pos hlt, if_neg hp, if_pos ⟨lt_of_lt_of_le hlt hc, by omega⟩]
            exact hrun
          · refine ⟨fun j hj => ?_, fun j hj hj2 => ?_, fun j hj hj2 => ?_,
              fun j hj hj2 => ?_⟩
            · rw [hA j (by omega), Function.update_noteq (by omega)]
            · omega
            · have hjk : j = k := by omega
              subst hjk
              rw [hA j (by omega), Function.update_same]
            · rw [hD j (by omega) hj2, Function.update_noteq (by omega)]
      · refine ⟨buf, ?_, ?_⟩
        · rw [GraphHistory.condenseLoop_exit count buf (2 * k) k hlt]
          congr 2
          omega
        · refine ⟨fun j _ => rfl, fun j _ _ => ?_, fun j _ _ => ?_, fun j _ _ => rfl⟩
          · omega
          · omega

/-- Effect of `condense` on a buffer whose count is within the capacity. -/
theorem GraphHistory.condense_spec (h : GraphHistory) (hc : h._count ≤ GRAPH_HISTORY_SIZE) :
    ∃ h1, h.condense = some h1 ∧ h1._count = (h._count + 1) / 2 ∧
      CondensedFrom h._count 0 h._buffer h1._buffer := by
  obtain ⟨buf', hrun, hcf⟩ :=
    GraphHistory.condenseLoop_spec h._count hc (h._count + 1) 0 h._buffer (by omega) (by omega)
  refine ⟨{ _buffer := buf', _count := (h._count + 1) / 2 }, ?_, rfl, hcf⟩
  unfold GraphHistory.condense
  rw [show (0 : Nat) = 2 * 0 from rfl, hrun]
  rfl

theorem GraphHistory.addPoint_below (h : GraphHistory) (pit meat1 meat2 setpoint : ℚ)
    (pitDisc meat1Disc meat2Disc : Bool) (hc : h._count < GRAPH_HISTORY_SIZE) :
    h.addPoint pit meat1 meat2 setpoint pitDisc meat1Disc meat2Disc =
      some
        { _buffer := Function.update h._buffer h._count
            { pit := pit, meat1 := meat1, meat2 := meat2, setpoint := setpoint,
              pitValid := !pitDisc, meat1Valid := !meat1Disc, meat2Valid := !meat2Disc },
          _count := h._count + 1 } := by
  unfold GraphHistory.addPoint
  have h16 : (h._count + 1) % 2 ^ 16 = h._count + 1 := by
    unfold GRAPH_HISTORY_SIZE at hc
    omega
  rw [if_neg (by omega)]
  simp only [Option.some_bind, if_pos hc, h16]

theorem GraphHistory.addPoint_full (h : GraphHistory) (pit meat1 meat2 setpoint : ℚ)
    (pitDisc meat1Disc meat2Disc : Bool) (hc : h._count = GRAPH_HISTORY_SIZE) :
    ∃ h1, h.condense = some h1 ∧ h1._count = 120 ∧
      CondensedFrom GRAPH_HISTORY_SIZE 0 h._buffer h1._buffer ∧
      h.addPoint pit meat1 meat2 setpoint pitDisc meat1Disc meat2Disc =
        some
          { _buffer := Function.update h1._buffer 120
              { pit := pit, meat1 := meat1, meat2 := meat2, setpoint := setpoint,
                pitValid := !pitDisc, meat1Valid := !meat1Disc, meat2Valid := !meat2Disc },
            _count := 121 } := by
  obtain ⟨h1, hcond, hcnt, hcf⟩ := GraphHistory.condense_spec h (le_of_eq hc)
  have hcnt1 : h1._count = 120 := by
    rw [hcnt, hc]
    rfl
  rw [hc] at hcf
  refine ⟨h1, hcond, hcnt1, hcf, ?_⟩
  unfold GraphHistory.addPoint
  rw [if_pos (le_of_eq hc.symm), hcond]
  simp only [Option.some_bind, hcnt1]
  rfl

theorem GraphCall.exec_capacity (h : GraphHistory) (call : GraphCall)
    (hc : h._count ≤ GRAPH_HISTORY_SIZE) :
    ∃ h1, call.exec h = some h1 ∧ h1._count ≤ GRAPH_HISTORY_SIZE := by
  cases call with
  | clear => exact ⟨h.clear, rfl, Nat.zero_le _⟩
  | addPoint p m1 m2 sp pd m1d m2d =>
      rcases Nat.lt_or_ge h._count GRAPH_HISTORY_SIZE with hlt | hge
      · exact ⟨_, GraphHistory.addPoint_below h p m1 m2 sp pd m1d m2d hlt, hlt⟩
      · obtain ⟨h1, _, _, _, hadd⟩ :=
          GraphHistory.addPoint_full h p m1 m2 sp pd m1d m2d (le_antisymm hc hge)
        refine ⟨_, hadd, ?_⟩
        show 121 ≤ GRAPH_HISTORY_SIZE
        decide

theorem graphRun_capacity (calls : List GraphCall) (h : GraphHistory)
    (hc : h._count ≤ GRAPH_HISTORY_SIZE) :
    ∃ h1, graphRun h calls = some h1 ∧ h1._count ≤ GRAPH_HISTORY_SIZE := by
  induction calls generalizing h with
  | nil => exact ⟨h, rfl, hc⟩
  | cons call rest ih =>
      obtain ⟨h1, hex, hc1⟩ := GraphCall.exec_capacity h call hc
      obtain ⟨h2, hrun, hc2⟩ := ih h1 hc1
      refine ⟨h2, ?_, hc2⟩
      unfold graphRun
      rw [hex]
      exact hrun

theorem GraphHistory.addPointWriteIndex_lt (h : GraphHistory)
    (hc : h._count ≤ GRAPH_HISTORY_SIZE) :
    ∃ idx, h.addPointWriteIndex = some idx ∧ idx < GRAPH_HISTORY_SIZE := by
  unfold GraphHistory.addPointWriteIndex
  rcases Nat.lt_or_ge h._count GRAPH_HISTORY_SIZE with hlt | hge
  · rw [if_neg (by omega)]
    exact ⟨h._count, rfl, hlt⟩
  · obtain ⟨h1, hcond, hcnt, _⟩ := GraphHistory.addPoint_full h 0 0 0 0 false false false
      (le_antisymm hc hge)
    rw [if_pos hge, hcond]
    exact ⟨h1._count, rfl, by rw [hcnt]; decide⟩

/-- C5: starting from an empty buffer, any finite sequence of `addPoint` and `clear`
calls runs without an access outside the 240-element array and leaves
`getCount() ≤ 240`, and the element a further `addPoint` writes the point to has an
index strictly below 240. -/
theorem graph_capacity_invariant (uninit : Nat → GraphSlot) (calls : List GraphCall) :
    ∃ h, graphRun (GraphHistory.ctor uninit) calls = some h ∧
      h.getCount ≤ 240 ∧
      ∃ idx, h.addPointWriteIndex = some idx ∧ idx < 240 := by
  obtain ⟨h, hrun, hc⟩ :=
    graphRun_capacity calls (GraphHistory.ctor uninit) (Nat.zero_le _)
  exact ⟨h, hrun, hc, GraphHistory.addPointWriteIndex_lt h hc⟩

/-- C6: `addPoint` on a buffer with `getCount() = 240` condenses, then appends: the
count becomes 121, slot 120 holds the new point, and every slot `k < 120` is the
merge of the original slots `2k` and `2k+1` (probe channels by the validity rule,
setpoint the mean), the in-place update notwithstanding. -/
theorem addPoint_full_condenses_then_appends (h : GraphHistory)
    (pit meat1 meat2 setpoint : ℚ) (pitDisc meat1Disc meat2Disc : Bool)
    (hfull : h.getCount = 240) :
    ∃ h1, h.addPoint pit meat1 meat2 setpoint pitDisc meat1Disc meat2Disc = some h1 ∧
      h1.getCount = 121 ∧
      h1._buffer 120 =
        { pit := pit, meat1 := meat1, meat2 := meat2, setpoint := setpoint,
          pitValid := !pitDisc, meat1Valid := !meat1Disc, meat2Valid := !meat2Disc } ∧
      ∀ k, k < 120 →
        h1._buffer k = specMergeSlot (h._buffer (2 * k)) (h._buffer (2 * k + 1)) := by
  obtain ⟨hc, _, _, hcf, hadd⟩ :=
    GraphHistory.addPoint_full h pit meat1 meat2 setpoint pitDisc meat1Disc meat2Disc hfull
  refine ⟨_, hadd, rfl, ?_, ?_⟩
  · show Function.update hc._buffer 120 _ 120 = _
    exact Function.update_same _ _ _
  intro k hk
  show Function.update hc._buffer 120 _ k = _
  rw [Function.update_noteq (by omega)]
  exact hcf.2.1 k (Nat.zero_le _) (by unfold GRAPH_HISTORY_SIZE; omega)

/-- Instance of C6: a full buffer whose slot `i` holds pit value `i`, then one more
point. -/
theorem addPoint_full_condenses_then_appends_witness :
    ∃ h1,
      GraphHistory.addPoint
        { _buffer := fun i =>
            { pit := i, meat1 := 0, meat2 := 0, setpoint := 225,
              pitValid := true, meat1Valid := false, meat2Valid := false },
          _count := 240 }
        250 150 0 225 false false true = some h1 ∧
      h1.getCount = 121 ∧
      h1._buffer 120 =
        { pit := 250, meat1 := 150, meat2 := 0, setpoint := 225,
          pitValid := true, meat1Valid := true, meat2Valid := false } ∧
      (h1._buffer 3).pit = 13 / 2 := by
  obtain ⟨h1, hadd, hcnt, hnew, hmerge⟩ :=
    addPoint_full_condenses_then_appends
      { _buffer := fun i =>
          { pit := i, meat1 := 0, meat2 := 0, setpoint := 225,
            pitValid := true, meat1Valid := false, meat2Valid := false },
        _count := 240 }
      250 150 0 225 false false true rfl
  refine ⟨h1, hadd, hcnt, hnew, ?_⟩
  rw [hmerge 3 (by norm_num)]
  norm_num [specMergeSlot, specMergeChannel]

/-- C7: the flag returned by `mergeValues` is valid exactly when at least one input is
valid; the value is (a+b)/2 when both are valid, the valid side when exactly one is,
and 0 when neither is; valid 100 with an invalid reading gives valid 100, valid 100
with valid 200 gives valid 150. -/
theorem mergeValues_validity_semantics (a b : ℚ) (aValid bValid : Bool) :
    ((GraphHistory.mergeValues a aValid b bValid).2 = true ↔
      (aValid = true ∨ bValid = true)) ∧
    GraphHistory.mergeValues a true b true = ((a + b) / 2, true) ∧
    GraphHistory.mergeValues a true b false = (a, true) ∧
    GraphHistory.mergeValues a false b true = (b, true) ∧
    GraphHistory.mergeValues a false b false = (0, false) ∧
    GraphHistory.mergeValues 100 true b false = (100, true) ∧
    GraphHistory.mergeValues a false 100 true = (100, true) ∧
    GraphHistory.mergeValues 100 true 200 true = (150, true) := by
  refine ⟨?_, ?_, ?_, ?_, ?_, ?_, ?_, ?_⟩
  · cases aValid <;> cases bValid <;> simp [GraphHistory.mergeValues]
  · simp [GraphHistory.mergeValues, div_eq_mul_inv]
  · simp [GraphHistory.mergeValues]
  · simp [GraphHistory.mergeValues]
  · simp [GraphHistory.mergeValues]
  · simp [GraphHistory.mergeValues]
  · simp [GraphHistory.mergeValues]
  · norm_num [GraphHistory.mergeValues]

/-! ## Theorems: TempManager -/

theorem TempManager.adcChannels_eq (i : Nat) (hi : i < NUM_PROBES) :
    TempManager._adcChannels i = i := by
  unfold NUM_PROBES at hi
  interval_cases i <;> rfl

theorem TempManager.adcToResistance_pos (raw : Int) (h1 : 0 < raw) (h2 : raw < 32767) :
    0 < TempManager.adcToResistance raw ∧
      TempManager.adcToResistance raw = 10000 * (32767 / (raw : ℚ) - 1) := by
  have hq : (0 : ℚ) < (raw : ℚ) := by exact_mod_cast h1
  have hq2 : (raw : ℚ) < 32767 := by exact_mod_cast h2
  have e : TempManager.adcToResistance raw = 10000 * (32767 / (raw : ℚ) - 1) := by
    unfold TempManager.adcToResistance
    rw [if_neg (not_le.mpr h1)]
    rfl
  refine ⟨?_, e⟩
  rw [e]
  have : 1 < 32767 / (raw : ℚ) := (one_lt_div hq).mpr hq2
  linarith

/-- Data of probe `i` after the loop body ran for probe `i`. -/
theorem TempManager.sampleProbe_at (logf : ℚ → ℚ) (m : TempManager) (i : Nat) (raw : Int) :
    (TempManager.sampleProbe logf m i raw)._rawADC i = raw ∧
    (raw ≥ ERROR_PROBE_OPEN_THRESHOLD →
      (TempManager.sampleProbe logf m i raw)._status i = ProbeStatus.OPEN_CIRCUIT) ∧
    (¬ raw ≥ ERROR_PROBE_OPEN_THRESHOLD → raw ≤ ERROR_PROBE_SHORT_THRESHOLD →
      (TempManager.sampleProbe logf m i raw)._status i = ProbeStatus.SHORT_CIRCUIT) ∧
    (¬ raw ≥ ERROR_PROBE_OPEN_THRESHOLD → ¬ raw ≤ ERROR_PROBE_SHORT_THRESHOLD →
      TempManager.adcToResistance raw ≤ 0 →
      (TempManager.sampleProbe logf m i raw)._status i = ProbeStatus.SHORT_CIRCUIT) ∧
    (TempManager.isFaultRaw raw →
      (TempManager.sampleProbe logf m i raw)._firstReading i = true ∧
      (TempManager.sampleProbe logf m i raw)._filteredTempC i = m._filteredTempC i) ∧
    (¬ TempManager.isFaultRaw raw →
      (TempManager.sampleProbe logf m i raw)._status i = ProbeStatus.OK ∧
      (TempManager.sampleProbe logf m i raw)._firstReading i = false ∧
      (TempManager.sampleProbe logf m i raw)._filteredTempC i =
        if m._firstReading i = true then TempManager.convertedReading logf m i raw
        else m._emaAlpha * TempManager.convertedReading logf m i raw +
          (1 - m._emaAlpha) * m._filteredTempC i) := by
  unfold TempManager.isFaultRaw TempManager.convertedReading TempManager.sampleProbe
  dsimp only
  by_cases h1 : raw ≥ ERROR_PROBE_OPEN_THRESHOLD
  · simp [h1]
  · by_cases h2 : raw ≤ ERROR_PROBE_SHORT_THRESHOLD
    · simp [h1, h2]
    · by_cases h3 : TempManager.adcToResistance raw ≤ 0
      · simp [h1, h2, h3]
      · cases hf : m._firstReading i <;> simp [h1, h2, h3, hf]

theorem TempManager.AgreeAt.symm {i : Nat} {m m' : TempManager}
    (h : TempManager.AgreeAt i m m') : TempManager.AgreeAt i m' m :=
  ⟨h.1.symm, h.2.1.symm, h.2.2.1.symm, h.2.2.2.1.symm, h.2.2.2.2.1.symm, h.2.2.2.2.2.symm⟩

theorem TempManager.AgreeAt.trans {i : Nat} {m m' m'' : TempManager}
    (h : TempManager.AgreeAt i m m') (h' : TempManager.AgreeAt i m' m'') :
    TempManager.AgreeAt i m m'' :=
  ⟨h.1.trans h'.1, h.2.1.trans h'.2.1, h.2.2.1.trans h'.2.2.1,
    h.2.2.2.1.trans h'.2.2.2.1, h.2.2.2.2.1.trans h'.2.2.2.2.1,
    h.2.2.2.2.2.trans h'.2.2.2.2.2⟩

/-- The loop body for probe `i` leaves the data of every other probe alone. -/
theorem TempManager.sampleProbe_other (logf : ℚ → ℚ) (m : TempManager) (i j : Nat)
    (raw : Int) (hji : j ≠ i) :
    TempManager.AgreeAt j (TempManager.sampleProbe logf m i raw) m := by
  unfold TempManager.AgreeAt TempManager.sampleProbe
  dsimp only
  split_ifs <;> simp [Function.update, hji]

/-- The data of probe `i` after its loop body depends only on the data of probe `i`
before it and on the shared settings. -/
theorem TempManager.sampleProbe_congr (logf : ℚ → ℚ) (m m' : TempManager) (i : Nat)
    (raw : Int) (h : TempManager.AgreeAt i m m') :
    TempManager.AgreeAt i (TempManager.sampleProbe logf m i raw)
      (TempManager.sampleProbe logf m' i raw) := by
  obtain ⟨_, h2, _, h4, h5, h6⟩ := h
  unfold TempManager.AgreeAt TempManager.sampleProbe
  dsimp only
  rw [h4, h5, h6, h2]
  split_ifs <;> simp [Function.update, h2, h4, h5, h6]

theorem TempManager.sampleProbe_lastSampleMs (logf : ℚ → ℚ) (m : TempManager) (i : Nat)
    (raw : Int) : (TempManager.sampleProbe logf m i raw)._lastSampleMs = m._lastSampleMs := by
  unfold TempManager.sampleProbe
  dsimp only
  split_ifs <;> rfl

theorem TempManager.update_not_due (logf : ℚ → ℚ) (m : TempManager) (now : Nat)
    (readADC : Nat → Int) (h : ¬ m.isDue now) : m.update logf now readADC = m := by
  unfold TempManager.isDue at h
  unfold TempManager.update
  rw [if_pos (not_not.mp h)]

theorem TempManager.update_due (logf : ℚ → ℚ) (m : TempManager) (now : Nat)
    (readADC : Nat → Int) (h : m.isDue now) :
    m.update logf now readADC =
      TempManager.sampleProbe logf
        (TempManager.sampleProbe logf
          (TempManager.sampleProbe logf { m with _lastSampleMs := now } 0 (readADC 0))
          1 (readADC 1))
        2 (readADC 2) := by
  unfold TempManager.isDue at h
  unfold TempManager.update
  rw [if_neg h]
  rfl

theorem TempManager.update_lastSampleMs (logf : ℚ → ℚ) (m : TempManager) (now : Nat)
    (readADC : Nat → Int) (h : m.isDue now) :
    (m.update logf now readADC)._lastSampleMs = now := by
  rw [TempManager.update_due logf m now readADC h]
  simp only [TempManager.sampleProbe_lastSampleMs]

/-- On a due call, the data of probe `i` after `update` is the data after the loop
body for probe `i` alone, run on the state before the call. -/
theorem TempManager.update_due_agree (logf : ℚ → ℚ) (m : TempManager) (now : Nat)
    (readADC : Nat → Int) (h : m.isDue now) (i : Nat) (hi : i < NUM_PROBES) :
    TempManager.AgreeAt i (m.update logf now readADC)
      (TempManager.sampleProbe logf m i (readADC (TempManager._adcChannels i))) := by
  rw [TempManager.update_due logf m now readADC h, TempManager.adcChannels_eq i hi]
  have h0 : TempManager.AgreeAt i { m with _lastSampleMs := now } m :=
    ⟨rfl, rfl, rfl, rfl, rfl, rfl⟩
  unfold NUM_PROBES at hi
  interval_cases i
  · exact ((TempManager.sampleProbe_other logf _ 2 0 _ (by decide)).trans
      (TempManager.sampleProbe_other logf _ 1 0 _ (by decide))).trans
      (TempManager.sampleProbe_congr logf _ _ 0 _ h0)
  · exact (TempManager.sampleProbe_other logf _ 2 1 _ (by decide)).trans
      (TempManager.sampleProbe_congr logf _ _ 1 _
        ((TempManager.sampleProbe_other logf _ 0 1 _ (by decide)).trans h0))
  · exact TempManager.sampleProbe_congr logf _ _ 2 _
      ((TempManager.sampleProbe_other logf _ 1 2 _ (by decide)).trans
        ((TempManager.sampleProbe_other logf _ 0 2 _ (by decide)).trans h0))

/-- C8: on a due `update`, a raw sample ≥ 32000 sets the probe status to OPEN_CIRCUIT,
a raw sample ≤ 100 sets it to SHORT_CIRCUIT, and every raw sample strictly between
100 and 32000 sets it to OK; for such a sample the resistance
10000 × (32767/raw − 1) is strictly positive, so the non-positive-resistance branch
is not taken. The sample ranges over all integers, the 16-bit ones included. -/
theorem probe_fault_thresholds (logf : ℚ → ℚ) (m : TempManager) (now : Nat)
    (readADC : Nat → Int) (i : Nat) (hi : i < NUM_PROBES) (hdue : m.isDue now) :
    (readADC (TempManager._adcChannels i) ≥ 32000 →
      (m.update logf now readADC).getStatus i = ProbeStatus.OPEN_CIRCUIT) ∧
    (readADC (TempManager._adcChannels i) ≤ 100 →
      (m.update logf now readADC).getStatus i = ProbeStatus.SHORT_CIRCUIT) ∧
    (100 < readADC (TempManager._adcChannels i) →
      readADC (TempManager._adcChannels i) < 32000 →
      (m.update logf now readADC).getStatus i = ProbeStatus.OK ∧
      0 < TempManager.adcToResistance (readADC (TempManager._adcChannels i)) ∧
      TempManager.adcToResistance (readADC (TempManager._adcChannels i)) =
        10000 * (32767 / (readADC (TempManager._adcChannels i) : ℚ) - 1)) := by
  have hag := TempManager.update_due_agree logf m now readADC hdue i hi
  have hst : (m.update logf now readADC).getStatus i =
      (TempManager.sampleProbe logf m i (readADC (TempManager._adcChannels i)))._status i := by
    unfold TempManager.getStatus
    rw [if_neg (not_le.mpr hi)]
    exact hag.2.2.1
  obtain ⟨_, hopen, hshort, _, _, hok⟩ :=
    TempManager.sampleProbe_at logf m i (readADC (TempManager._adcChannels i))
  rw [hst]
  refine ⟨fun h => hopen h, fun h => hshort ?_ h, fun h1 h2 => ?_⟩
  · unfold ERROR_PROBE_OPEN_THRESHOLD
    omega
  · have hr := TempManager.adcToResistance_pos (readADC (TempManager._adcChannels i))
      (by omega) (by omega)
    refine ⟨(hok ?_).1, hr⟩
    unfold TempManager.isFaultRaw ERROR_PROBE_OPEN_THRESHOLD ERROR_PROBE_SHORT_THRESHOLD
    rintro (h | h | h)
    · omega
    · omega
    · exact absurd hr.1 (not_lt.mpr h)

/-- Instance of C8: first sampling tick of a fresh manager, pit probe reading exactly
32000, `logf` constant. -/
theorem probe_fault_thresholds_witness :
    (TempManager.ctor.update (fun _ => 0) 1000 (fun _ => 32000)).getStatus 0 =
      ProbeStatus.OPEN_CIRCUIT :=
  (probe_fault_thresholds (fun _ => 0) TempManager.ctor 1000 (fun _ => 32000) 0
    (by decide) (by decide)).1 (by decide)

theorem TempManager.sampleProbe_settings (logf : ℚ → ℚ) (m : TempManager) (i : Nat)
    (raw : Int) :
    (TempManager.sampleProbe logf m i raw)._probeConfig = m._probeConfig ∧
      (TempManager.sampleProbe logf m i raw)._emaAlpha = m._emaAlpha := by
  have h := TempManager.sampleProbe_other logf m i (i + 1) raw (Nat.succ_ne_self i)
  exact ⟨h.2.2.2.2.1, h.2.2.2.2.2⟩

theorem TempManager.update_settings (logf : ℚ → ℚ) (m : TempManager) (now : Nat)
    (readADC : Nat → Int) :
    (m.update logf now readADC)._probeConfig = m._probeConfig ∧
      (m.update logf now readADC)._emaAlpha = m._emaAlpha := by
  by_cases h : m.isDue now
  · rw [TempManager.update_due logf m now readADC h]
    simp only [TempManager.sampleProbe_settings, and_self]
  · rw [TempManager.update_not_due logf m now readADC h]
    exact ⟨rfl, rfl⟩

theorem TempManager.convertedReading_congr (logf : ℚ → ℚ) (m m' : TempManager) (i : Nat)
    (raw : Int) (h : m._probeConfig = m'._probeConfig) :
    TempManager.convertedReading logf m i raw = TempManager.convertedReading logf m' i raw := by
  unfold TempManager.convertedReading
  rw [h]

/-- A call of `update` whose sample for probe `i` is a fault keeps a set first-reading
flag set and the filtered temperature in place, due or not. -/
theorem TempManager.update_fault_keeps (logf : ℚ → ℚ) (m : TempManager) (now : Nat)
    (readADC : Nat → Int) (i : Nat) (hi : i < NUM_PROBES)
    (hf : TempManager.isFaultRaw (readADC (TempManager._adcChannels i)))
    (hflag : m._firstReading i = true) :
    (m.update logf now readADC)._firstReading i = true ∧
      (m.update logf now readADC)._filteredTempC i = m._filteredTempC i := by
  by_cases h : m.isDue now
  · have hag := TempManager.update_due_agree logf m now readADC h i hi
    have hat := (TempManager.sampleProbe_at logf m i
      (readADC (TempManager._adcChannels i))).2.2.2.2.1 hf
    exact ⟨hag.2.2.2.1.trans hat.1, hag.2.1.trans hat.2⟩
  · rw [TempManager.update_not_due logf m now readADC h]
    exact ⟨hflag, rfl⟩

theorem updateRun_fault_keeps (logf : ℚ → ℚ) (i : Nat) (hi : i < NUM_PROBES)
    (calls : List (Nat × (Nat → Int))) :
    ∀ m : TempManager, m._firstReading i = true →
      (∀ c ∈ calls, TempManager.isFaultRaw (c.2 (TempManager._adcChannels i))) →
      (updateRun logf m calls)._firstReading i = true ∧
      (updateRun logf m calls)._filteredTempC i = m._filteredTempC i ∧
      (updateRun logf m calls)._probeConfig = m._probeConfig ∧
      (updateRun logf m calls)._emaAlpha = m._emaAlpha := by
  induction calls with
  | nil => intro m hflag _; exact ⟨hflag, rfl, rfl, rfl⟩
  | cons c rest ih =>
      intro m hflag hall
      have hk := TempManager.update_fault_keeps logf m c.1 c.2 i hi
        (hall c (List.mem_cons_self _ _)) hflag
      have hs := TempManager.update_settings logf m c.1 c.2
      obtain ⟨h1, h2, h3, h4⟩ := ih (m.update logf c.1 c.2) hk.1
        (fun c' hc' => hall c' (List.mem_cons_of_mem _ hc'))
      exact ⟨h1, h2.trans hk.2, h3.trans hs.1, h4.trans hs.2⟩

theorem TempManager.update_valid_step (logf : ℚ → ℚ) (m : TempManager) (now : Nat)
    (readADC : Nat → Int) (i : Nat) (hi : i < NUM_PROBES) (hdue : m.isDue now)
    (hok : ¬ TempManager.isFaultRaw (readADC (TempManager._adcChannels i))) :
    (m.update logf now readADC).isConnected i = true ∧
    (m.update logf now readADC)._firstReading i = false ∧
    (m._firstReading i = true →
      (m.update logf now readADC)._filteredTempC i =
        TempManager.convertedReading logf m i (readADC (TempManager._adcChannels i))) ∧
    (m._firstReading i = false →
      (m.update logf now readADC)._filteredTempC i =
        m._emaAlpha *
            TempManager.convertedReading logf m i (readADC (TempManager._adcChannels i)) +
          (1 - m._emaAlpha) * m._filteredTempC i) := by
  have hag := TempManager.update_due_agree logf m now readADC hdue i hi
  obtain ⟨hst, hfl, hfilt⟩ := (TempManager.sampleProbe_at logf m i
    (readADC (TempManager._adcChannels i))).2.2.2.2.2 hok
  refine ⟨?_, hag.2.2.2.1.trans hfl, fun h => ?_, fun h => ?_⟩
  · unfold TempManager.isConnected
    rw [if_neg (not_le.mpr hi), hag.2.2.1, hst]
    rfl
  · rw [hag.2.1, hfilt, if_pos h]
  · rw [hag.2.1, hfilt, if_neg (by rw [h]; decide)]

/-- C9: on a sampling tick with a non-fault raw value whose converted reading is t:
the probe is connected after the tick; if the first-reading flag is set the filtered
temperature becomes exactly t, otherwise α·t + (1−α)·previous. The flag is set in a
fresh manager and, after every sampling tick, exactly when that tick's raw value was
a fault; and after any number of further `update` calls with fault samples the next
valid sampling tick still stores exactly t. -/
theorem smoothing_step_and_recovery (logf : ℚ → ℚ) (i : Nat) (hi : i < NUM_PROBES)
    (now : Nat) (readADC : Nat → Int)
    (hok : ¬ TempManager.isFaultRaw (readADC (TempManager._adcChannels i))) :
    (∀ m : TempManager, m.isDue now →
      (m.update logf now readADC).isConnected i = true ∧
      (m._firstReading i = true →
        (m.update logf now readADC)._filteredTempC i =
          TempManager.convertedReading logf m i (readADC (TempManager._adcChannels i))) ∧
      (m._firstReading i = false →
        (m.update logf now readADC)._filteredTempC i =
          m._emaAlpha *
              TempManager.convertedReading logf m i (readADC (TempManager._adcChannels i)) +
            (1 - m._emaAlpha) * m._filteredTempC i)) ∧
    TempManager.ctor._firstReading i = true ∧
    (∀ (mp : TempManager) (nowp : Nat) (readp : Nat → Int), mp.isDue nowp →
      ((mp.update logf nowp readp)._firstReading i = true ↔
        TempManager.isFaultRaw (readp (TempManager._adcChannels i)))) ∧
    (∀ (m : TempManager) (calls : List (Nat × (Nat → Int))),
      m._firstReading i = true →
      (∀ c ∈ calls, TempManager.isFaultRaw (c.2 (TempManager._adcChannels i))) →
      (updateRun logf m calls).isDue now →
      ((updateRun logf m calls).update logf now readADC).isConnected i = true ∧
      ((updateRun logf m calls).update logf now readADC)._filteredTempC i =
        TempManager.convertedReading logf m i (readADC (TempManager._adcChannels i))) := by
  refine ⟨?_, rfl, ?_, ?_⟩
  · intro m hdue
    obtain ⟨h1, _, h3, h4⟩ := TempManager.update_valid_step logf m now readADC i hi hdue hok
    exact ⟨h1, h3, h4⟩
  · intro mp nowp readp hdue
    by_cases hf : TempManager.isFaultRaw (readp (TempManager._adcChannels i))
    · have hag := TempManager.update_due_agree logf mp nowp readp hdue i hi
      have hat := (TempManager.sampleProbe_at logf mp i
        (readp (TempManager._adcChannels i))).2.2.2.2.1 hf
      exact ⟨fun _ => hf, fun _ => hag.2.2.2.1.trans hat.1⟩
    · have hv := (TempManager.update_valid_step logf mp nowp readp i hi hdue hf).2.1
      constructor
      · intro h
        rw [hv] at h
        exact absurd h (by decide)
      · intro h
        exact absurd h hf
  · intro m calls hflag hall hdue
    obtain ⟨k1, k2, k3, _⟩ := updateRun_fault_keeps logf i hi calls m hflag hall
    obtain ⟨h1, _, h3, _⟩ :=
      TempManager.update_valid_step logf (updateRun logf m calls) now readADC i hi hdue hok
    refine ⟨h1, ?_⟩
    rw [h3 k1]
    exact TempManager.convertedReading_congr logf _ _ i _ k3

/-- C10: when a sampling tick classifies a probe's raw value as a fault, that probe's
filtered temperature is left as it was and its first-reading flag is set; and the
data of any probe after the tick is the same for all readings that agree on that
probe's own raw value. -/
theorem fault_preserves_stale_data (logf : ℚ → ℚ) (m : TempManager) (now : Nat)
    (readADC : Nat → Int) (i : Nat) (hi : i < NUM_PROBES) (hdue : m.isDue now)
    (hfault : TempManager.isFaultRaw (readADC (TempManager._adcChannels i))) :
    (m.update logf now readADC)._filteredTempC i = m._filteredTempC i ∧
    (m.update logf now readADC)._firstReading i = true ∧
    ∀ (j : Nat) (readADC' : Nat → Int), j < NUM_PROBES →
      readADC' (TempManager._adcChannels j) = readADC (TempManager._adcChannels j) →
      (m.update logf now readADC')._rawADC j = (m.update logf now readADC)._rawADC j ∧
      (m.update logf now readADC')._filteredTempC j =
        (m.update logf now readADC)._filteredTempC j ∧
      (m.update logf now readADC')._status j = (m.update logf now readADC)._status j ∧
      (m.update logf now readADC')._firstReading j =
        (m.update logf now readADC)._firstReading j := by
  have hag := TempManager.update_due_agree logf m now readADC hdue i hi
  have hat := (TempManager.sampleProbe_at logf m i
    (readADC (TempManager._adcChannels i))).2.2.2.2.1 hfault
  refine ⟨hag.2.1.trans hat.2, hag.2.2.2.1.trans hat.1, ?_⟩
  intro j readADC' hj heq
  have h1 := TempManager.update_due_agree logf m now readADC' hdue j hj
  have h2 := TempManager.update_due_agree logf m now readADC hdue j hj
  rw [heq] at h1
  have h3 := h1.trans h2.symm
  exact ⟨h3.1, h3.2.1, h3.2.2.1, h3.2.2.2.1⟩

theorem TempManager.not_isFaultRaw_of_between (raw : Int) (h1 : 100 < raw) (h2 : raw < 32000) :
    ¬ TempManager.isFaultRaw raw := by
  have hr := TempManager.adcToResistance_pos raw (by omega) (by omega)
  unfold TempManager.isFaultRaw ERROR_PROBE_OPEN_THRESHOLD ERROR_PROBE_SHORT_THRESHOLD
  rintro (h | h | h)
  · omega
  · omega
  · exact absurd hr.1 (not_lt.mpr h)

/-- Instance of C9: a fresh manager, ten sampling ticks one second apart with the pit
probe open (raw 32767), then a sampling tick with raw 16000. -/
theorem smoothing_step_and_recovery_witness :
    ((updateRun (fun _ => 0) TempManager.ctor
        ((List.range 10).map fun k => ((k + 1) * 1000, fun _ => (32767 : Int)))).update
      (fun _ => 0) 11000 (fun _ => 16000)).isConnected 0 = true ∧
    ((updateRun (fun _ => 0) TempManager.ctor
        ((List.range 10).map fun k => ((k + 1) * 1000, fun _ => (32767 : Int)))).update
      (fun _ => 0) 11000 (fun _ => 16000))._filteredTempC 0 =
      TempManager.convertedReading (fun _ => 0) TempManager.ctor 0 16000 :=
  (smoothing_step_and_recovery (fun _ => 0) 0 (by decide) 11000 (fun _ => 16000)
    (TempManager.not_isFaultRaw_of_between 16000 (by decide) (by decide))).2.2.2
    TempManager.ctor
    ((List.range 10).map fun k => ((k + 1) * 1000, fun _ => (32767 : Int)))
    rfl
    (by
      intro c hc
      obtain ⟨k, _, rfl⟩ := List.mem_map.mp hc
      exact Or.inl (show (32767 : Int) ≥ ERROR_PROBE_OPEN_THRESHOLD by decide))
    (by decide)

/-- Instance of C10: a manager whose pit probe holds a filtered 107 °C, then a
sampling tick on which the pit probe reads short (raw 50). -/
theorem fault_preserves_stale_data_witness :
    (({ TempManager.ctor with
          _filteredTempC := fun _ => 107,
          _status := fun _ => ProbeStatus.OK,
          _firstReading := fun _ => false } : TempManager).update
        (fun _ => 0) 1000 (fun _ => 50))._filteredTempC 0 = 107 ∧
    (({ TempManager.ctor with
          _filteredTempC := fun _ => 107,
          _status := fun _ => ProbeStatus.OK,
          _firstReading := fun _ => false } : TempManager).update
        (fun _ => 0) 1000 (fun _ => 50))._firstReading 0 = true :=
  have h := fault_preserves_stale_data (fun _ => 0)
    { TempManager.ctor with
      _filteredTempC := fun _ => 107,
      _status := fun _ => ProbeStatus.OK,
      _firstReading := fun _ => false }
    1000 (fun _ => 50) 0 (by decide) (by decide) (Or.inr (Or.inl (by decide)))
  ⟨h.1, h.2.1⟩

/-! ## Theorems: splitRange columns, endpoints and monotonicity -/

/-- C11: damperPercent is 100 in mode "fan_only"; in mode "damper_primary" it is
pidOutput when pidOutput ≤ max(fanOnThreshold, 50) and 100 above that threshold; in
mode "fan_and_damper" and for every other mode string it is pidOutput. -/
theorem splitRange_damper_column (pidOutput fanOnThreshold : ℚ) (fanMode : String) :
    (splitRange pidOutput "fan_only" fanOnThreshold).damperPercent = 100 ∧
    (splitRange pidOutput "damper_primary" fanOnThreshold).damperPercent =
      (if pidOutput ≤ max fanOnThreshold 50 then pidOutput else 100) ∧
    (splitRange pidOutput "fan_and_damper" fanOnThreshold).damperPercent = pidOutput ∧
    (fanMode ≠ "fan_only" → fanMode ≠ "damper_primary" →
      (splitRange pidOutput fanMode fanOnThreshold).damperPercent = pidOutput) := by
  refine ⟨?_, ?_, ?_, ?_⟩
  · simp [splitRange]
  · unfold splitRange
    rw [if_neg (by decide), if_pos rfl]
    dsimp only
    by_cases h : pidOutput > max fanOnThreshold 50
    · rw [if_pos h, if_neg (not_le.mpr h)]
    · rw [if_neg h, if_pos (not_lt.mp h)]
  · unfold splitRange
    rw [if_neg (by decide), if_neg (by decide)]
    split_ifs <;> rfl
  · intro h1 h2
    unfold splitRange
    rw [if_neg h1, if_neg h2]
    split_ifs <;> rfl

/-- C12: fanPercent equals pidOutput in mode "fan_only"; in mode "fan_and_damper" and
in any unrecognised mode it is 0 when pidOutput ≤ fanOnThreshold and
(pidOutput − fanOnThreshold)/(100 − fanOnThreshold) × 100 when pidOutput >
fanOnThreshold; in mode "damper_primary" the same rule applies with the threshold
max(fanOnThreshold, 50), so the result is the same for all thresholds ≤ 50. -/
theorem splitRange_fan_column (pidOutput fanOnThreshold otherThreshold : ℚ)
    (fanMode : String) :
    (splitRange pidOutput "fan_only" fanOnThreshold).fanPercent = pidOutput ∧
    (splitRange pidOutput "fan_and_damper" fanOnThreshold).fanPercent =
      (if pidOutput ≤ fanOnThreshold then 0
        else (pidOutput - fanOnThreshold) / (100 - fanOnThreshold) * 100) ∧
    (fanMode ≠ "fan_only" → fanMode ≠ "damper_primary" →
      (splitRange pidOutput fanMode fanOnThreshold).fanPercent =
        (if pidOutput ≤ fanOnThreshold then 0
          else (pidOutput - fanOnThreshold) / (100 - fanOnThreshold) * 100)) ∧
    (splitRange pidOutput "damper_primary" fanOnThreshold).fanPercent =
      (if pidOutput ≤ max fanOnThreshold 50 then 0
        else (pidOutput - max fanOnThreshold 50) / (100 - max fanOnThreshold 50) * 100) ∧
    (fanOnThreshold ≤ 50 → otherThreshold ≤ 50 →
      (splitRange pidOutput "damper_primary" fanOnThreshold).fanPercent =
        (splitRange pidOutput "damper_primary" otherThreshold).fanPercent) := by
  have hother : ∀ (m : String) (t : ℚ), m ≠ "fan_only" → m ≠ "damper_primary" →
      (splitRange pidOutput m t).fanPercent =
        (if pidOutput ≤ t then 0 else (pidOutput - t) / (100 - t) * 100) := by
    intro m t h1 h2
    unfold splitRange
    rw [if_neg h1, if_neg h2]
    by_cases h : pidOutput > t
    · rw [if_pos h, if_neg (not_le.mpr h)]
    · rw [if_neg h, if_pos (not_lt.mp h)]
  have hdp : ∀ t : ℚ, (splitRange pidOutput "damper_primary" t).fanPercent =
      (if pidOutput ≤ max t 50 then 0
        else (pidOutput - max t 50) / (100 - max t 50) * 100) := by
    intro t
    unfold splitRange
    rw [if_neg (by decide), if_pos rfl]
    dsimp only
    by_cases h : pidOutput > max t 50
    · rw [if_pos h, if_neg (not_le.mpr h)]
    · rw [if_neg h, if_pos (not_lt.mp h)]
  refine ⟨?_, ?_, ?_, ?_, ?_⟩
  · simp [splitRange]
  · exact hother "fan_and_damper" fanOnThreshold (by decide) (by decide)
  · exact hother fanMode fanOnThreshold
  · exact hdp fanOnThreshold
  · intro h1 h2
    rw [hdp fanOnThreshold, hdp otherThreshold, max_eq_right h1, max_eq_right h2]

/-- C13, as stated, fails: with fanOnThreshold = 100 (inside [0,100]) and mode
"fan_and_damper", `splitRange(100, …)` yields fanPercent 0, not 100. -/
theorem splitRange_endpoints_counterexample :
    ((0 : ℚ) ≤ 100 ∧ (100 : ℚ) ≤ 100) ∧
    (splitRange 100 "fan_and_damper" 100).fanPercent = 0 ∧
    (splitRange 100 "fan_and_damper" 100).fanPercent ≠ 100 ∧
    (splitRange 100 "fan_and_damper" 100).damperPercent = 100 := by
  have e : splitRange 100 "fan_and_damper" 100 = { fanPercent := 0, damperPercent := 100 } := by
    unfold splitRange
    rw [if_neg (by decide), if_neg (by decide), if_neg (lt_irrefl _)]
  rw [e]
  norm_num

/-- C13 (amended): for every mode and every fanOnThreshold in [0,100],
`splitRange(0, …)` yields fanPercent 0 and damperPercent 0 (damperPercent 100 in
"fan_only", where it is 100 for every pidOutput); `splitRange(100, …)` yields
damperPercent 100, and fanPercent 100 when the mode is "fan_only" or
fanOnThreshold < 100; at fanOnThreshold = 100 in the other modes the fan stays at 0,
pidOutput never being above the threshold. -/
theorem splitRange_endpoints (fanMode : String) (fanOnThreshold : ℚ)
    (ht : 0 ≤ fanOnThreshold ∧ fanOnThreshold ≤ 100) :
    (splitRange 0 fanMode fanOnThreshold).fanPercent = 0 ∧
    (splitRange 0 fanMode fanOnThreshold).damperPercent =
      (if fanMode = "fan_only" then 100 else 0) ∧
    (splitRange 100 fanMode fanOnThreshold).damperPercent = 100 ∧
    (fanMode = "fan_only" ∨ fanOnThreshold < 100 →
      (splitRange 100 fanMode fanOnThreshold).fanPercent = 100) ∧
    (fanMode ≠ "fan_only" → fanOnThreshold = 100 →
      (splitRange 100 fanMode fanOnThreshold).fanPercent = 0) ∧
    ∀ pidOutput : ℚ, (splitRange pidOutput "fan_only" fanOnThreshold).damperPercent = 100 := by
  obtain ⟨ht0, ht1⟩ := ht
  have hmax0 : ¬ (0 : ℚ) > max fanOnThreshold 50 :=
    not_lt.mpr (le_trans (by norm_num) (le_max_right fanOnThreshold 50))
  have hfull : ∀ t : ℚ, t < 100 → (100 - t) / (100 - t) * 100 = 100 := by
    intro t h
    rw [div_self (by linarith), one_mul]
  refine ⟨?_, ?_, ?_, ?_, ?_, ?_⟩
  · unfold splitRange
    dsimp only
    split_ifs <;> first | rfl | (exfalso; linarith)
  · unfold splitRange
    dsimp only
    split_ifs <;> rfl
  · unfold splitRange
    dsimp only
    split_ifs <;> rfl
  · intro h
    unfold splitRange
    dsimp only
    by_cases hm1 : fanMode = "fan_only"
    · rw [if_pos hm1]
    · have hlt : fanOnThreshold < 100 := h.resolve_left hm1
      rw [if_neg hm1]
      by_cases hm2 : fanMode = "damper_primary"
      · have hlt2 : max fanOnThreshold 50 < 100 := max_lt hlt (by norm_num)
        rw [if_pos hm2, if_pos hlt2]
        exact hfull _ hlt2
      · rw [if_neg hm2, if_pos hlt]
        exact hfull _ hlt
  · intro hm1 h100
    subst h100
    unfold splitRange
    dsimp only
    rw [if_neg hm1]
    have hmax : max (100 : ℚ) 50 = 100 := max_eq_left (by norm_num)
    split_ifs with h1 h2 h3
    · rw [hmax] at h2
      exact absurd h2 (lt_irrefl _)
    · rfl
    · exact absurd h3 (lt_irrefl _)
    · rfl
  · intro p
    simp [splitRange]

/-- Instance of C13 (amended): mode "damper_primary", fanOnThreshold 30. -/
theorem splitRange_endpoints_witness :
    (splitRange 100 "damper_primary" 30).fanPercent = 100 :=
  (splitRange_endpoints "damper_primary" 30 (by norm_num)).2.2.2.1 (Or.inr (by norm_num))

/-- The fan rule `0` up to the threshold, the linear rescaling above it, is monotone on
pidOutput ≤ 100. -/
theorem splitRange_scale_mono (thr p q : ℚ) (hpq : p ≤ q) (hq : q ≤ 100) :
    (if p > thr then (p - thr) / (100 - thr) * 100 else 0) ≤
      (if q > thr then (q - thr) / (100 - thr) * 100 else 0) := by
  by_cases hp : p > thr
  · have hq' : q > thr := lt_of_lt_of_le hp hpq
    have hd : 0 < 100 - thr := by linarith
    rw [if_pos hp, if_pos hq']
    have h : (p - thr) / (100 - thr) ≤ (q - thr) / (100 - thr) :=
      div_le_div_of_nonneg_right (by linarith) hd.le
    linarith
  · rw [if_neg hp]
    by_cases hq' : q > thr
    · rw [if_pos hq']
      exact (splitRange_scale_range q thr hq' hq).1
    · rw [if_neg hq']

/-- C14: for every mode and every fanOnThreshold (in [0,100] or not), if
p ≤ q ≤ 100 (in particular if 0 ≤ p ≤ q ≤ 100) then fanPercent(p) ≤ fanPercent(q)
and damperPercent(p) ≤ damperPercent(q). -/
theorem splitRange_monotone (fanMode : String) (fanOnThreshold p q : ℚ)
    (hpq : p ≤ q ∧ q ≤ 100) :
    (splitRange p fanMode fanOnThreshold).fanPercent ≤
      (splitRange q fanMode fanOnThreshold).fanPercent ∧
    (splitRange p fanMode fanOnThreshold).damperPercent ≤
      (splitRange q fanMode fanOnThreshold).damperPercent := by
  obtain ⟨hle, hq⟩ := hpq
  have hfan : ∀ (x thr : ℚ),
      (if x > thr then
          ({ fanPercent := (x - thr) / (100 - thr) * 100, damperPercent := x } :
            SplitRangeOutput)
        else { fanPercent := 0, damperPercent := x }).fanPercent =
      (if x > thr then (x - thr) / (100 - thr) * 100 else 0) := by
    intro x thr
    split_ifs <;> rfl
  have hfan2 : ∀ (x thr : ℚ),
      (if x > thr then
          ({ fanPercent := (x - thr) / (100 - thr) * 100, damperPercent := 100 } :
            SplitRangeOutput)
        else { fanPercent := 0, damperPercent := x }).fanPercent =
      (if x > thr then (x - thr) / (100 - thr) * 100 else 0) := by
    intro x thr
    split_ifs <;> rfl
  unfold splitRange
  dsimp only
  by_cases hm1 : fanMode = "fan_only"
  · rw [if_pos hm1, if_pos hm1]
    exact ⟨hle, le_refl _⟩
  · rw [if_neg hm1, if_neg hm1]
    by_cases hm2 : fanMode = "damper_primary"
    · rw [if_pos hm2, if_pos hm2]
      refine ⟨?_, ?_⟩
      · rw [hfan2, hfan2]
        exact splitRange_scale_mono _ p q hle hq
      · by_cases hp : p > max fanOnThreshold 50
        · rw [if_pos hp, if_pos (lt_of_lt_of_le hp hle)]
        · rw [if_neg hp]
          by_cases hq' : q > max fanOnThreshold 50
          · rw [if_pos hq']
            exact le_trans hle hq
          · rw [if_neg hq']
            exact hle
    · rw [if_neg hm2, if_neg hm2]
      refine ⟨?_, ?_⟩
      · rw [hfan, hfan]
        exact splitRange_scale_mono _ p q hle hq
      · have hd : ∀ x : ℚ,
            (if x > fanOnThreshold then
                ({ fanPercent := (x - fanOnThreshold) / (100 - fanOnThreshold) * 100,
                   damperPercent := x } : SplitRangeOutput)
              else { fanPercent := 0, damperPercent := x }).damperPercent = x := by
          intro x
          split_ifs <;> rfl
        rw [hd, hd]
        exact hle

/-- Instance of C14: mode "fan_and_damper", fanOnThreshold 30, pidOutput 20 and 80. -/
theorem splitRange_monotone_witness :
    (splitRange 20 "fan_and_damper" 30).fanPercent ≤
      (splitRange 80 "fan_and_damper" 30).fanPercent ∧
    (splitRange 20 "fan_and_damper" 30).damperPercent ≤
      (splitRange 80 "fan_and_damper" 30).damperPercent :=
  splitRange_monotone "fan_and_damper" 30 20 80 (by norm_num)

/-! ## Theorems: GraphHistory counts and appends -/

theorem graphRun_cons (c : GraphCall) (cs : List GraphCall) (h : GraphHistory) :
    graphRun h (c :: cs) = (c.exec h).bind fun h1 => graphRun h1 cs := rfl

theorem graphRun_append (xs ys : List GraphCall) (h : GraphHistory) :
    graphRun h (xs ++ ys) = (graphRun h xs).bind fun h1 => graphRun h1 ys := by
  induction xs generalizing h with
  | nil => rfl
  | cons c rest ih =>
      rw [List.cons_append, graphRun_cons, graphRun_cons]
      cases hc : c.exec h with
      | none => rfl
      | some h1 =>
          simp only [Option.some_bind]
          exact ih h1

/-- Count after one `addPoint` on a buffer within capacity. -/
theorem GraphHistory.addPoint_count (h : GraphHistory) (pit meat1 meat2 setpoint : ℚ)
    (pitDisc meat1Disc meat2Disc : Bool) (hc : h._count ≤ GRAPH_HISTORY_SIZE) :
    ∃ h1, h.addPoint pit meat1 meat2 setpoint pitDisc meat1Disc meat2Disc = some h1 ∧
      h1._count = if h._count < GRAPH_HISTORY_SIZE then h._count + 1 else 121 := by
  rcases Nat.lt_or_ge h._count GRAPH_HISTORY_SIZE with hlt | hge
  · refine ⟨_, GraphHistory.addPoint_below h pit meat1 meat2 setpoint pitDisc meat1Disc
      meat2Disc hlt, ?_⟩
    rw [if_pos hlt]
  · obtain ⟨_, _, _, _, hadd⟩ := GraphHistory.addPoint_full h pit meat1 meat2 setpoint
      pitDisc meat1Disc meat2Disc (le_antisymm hc hge)
    refine ⟨_, hadd, ?_⟩
    rw [if_neg (not_lt.mpr hge)]

/-- C15: after n `addPoint` calls on an empty buffer, no `clear` in between,
`getCount()` is n for n ≤ 240 and 121 + ((n − 241) mod 120) for n > 240 (121 for
n = 241); and whenever the next `addPoint` condenses, the count is exactly 240 and
`condense` leaves 120 slots. -/
theorem graph_count_after_insertions (uninit : Nat → GraphSlot) (calls : List GraphCall)
    (hadd : ∀ c ∈ calls, c ≠ GraphCall.clear) :
    ∃ h, graphRun (GraphHistory.ctor uninit) calls = some h ∧
      h.getCount =
        (if calls.length ≤ 240 then calls.length else 121 + (calls.length - 241) % 120) ∧
      (h.getCount ≥ GRAPH_HISTORY_SIZE →
        h.getCount = 240 ∧ ∃ h1, h.condense = some h1 ∧ h1.getCount = 120) := by
  have hmain : ∃ h, graphRun (GraphHistory.ctor uninit) calls = some h ∧
      h._count =
        (if calls.length ≤ 240 then calls.length else 121 + (calls.length - 241) % 120) := by
    induction calls using List.reverseRecOn with
    | nil => exact ⟨GraphHistory.ctor uninit, rfl, rfl⟩
    | append_singleton xs c ih =>
        obtain ⟨h, hrun, hcnt⟩ := ih (fun c' hc' => hadd c' (List.mem_append_left _ hc'))
        have hle : h._count ≤ GRAPH_HISTORY_SIZE := by
          rw [hcnt]
          unfold GRAPH_HISTORY_SIZE
          split_ifs <;> omega
        cases c with
        | clear => exact absurd rfl (hadd GraphCall.clear (by simp))
        | addPoint p m1 m2 sp pd m1d m2d =>
            obtain ⟨h1, hadd1, hcnt1⟩ := GraphHistory.addPoint_count h p m1 m2 sp pd m1d m2d hle
            refine ⟨h1, ?_, ?_⟩
            · rw [graphRun_append, hrun]
              show ((GraphCall.addPoint p m1 m2 sp pd m1d m2d).exec h).bind _ = _
              show (h.addPoint p m1 m2 sp pd m1d m2d).bind _ = _
              rw [hadd1]
              rfl
            · rw [hcnt1, hcnt, List.length_append, List.length_singleton]
              unfold GRAPH_HISTORY_SIZE
              split_ifs <;> omega
  obtain ⟨h, hrun, hcnt⟩ := hmain
  refine ⟨h, hrun, hcnt, ?_⟩
  intro hge
  have hle : h._count ≤ GRAPH_HISTORY_SIZE := by
    rw [hcnt]
    unfold GRAPH_HISTORY_SIZE
    split_ifs <;> omega
  have heq : h._count = GRAPH_HISTORY_SIZE := le_antisymm hle hge
  obtain ⟨h1, hcond, hc1, _⟩ := GraphHistory.addPoint_full h 0 0 0 0 false false false heq
  exact ⟨heq, h1, hcond, hc1⟩

/-- Instance of C15: three points inserted into an empty buffer. -/
theorem graph_count_after_insertions_witness :
    ∃ h, graphRun (GraphHistory.ctor fun _ => GraphHistory.emptySlot)
        [GraphCall.addPoint 225 150 0 225 false false true,
         GraphCall.addPoint 226 151 0 225 false false true,
         GraphCall.addPoint 227 152 0 225 false false true] = some h ∧
      h.getCount = 3 := by
  obtain ⟨h, hrun, hcnt, _⟩ := graph_count_after_insertions
    (fun _ => GraphHistory.emptySlot)
    [GraphCall.addPoint 225 150 0 225 false false true,
     GraphCall.addPoint 226 151 0 225 false false true,
     GraphCall.addPoint 227 152 0 225 false false true]
    (by
      intro c hc he
      subst he
      simp at hc)
  exact ⟨h, hrun, hcnt⟩

/-- C16: `addPoint` on a buffer with `getCount() = c < 240` leaves `getCount() = c + 1`,
`getSlot(c)` holding exactly the new values with each validity flag the negation of
the disconnected flag, and `getSlot(i)` unchanged for every i < c. -/
theorem addPoint_below_capacity_appends (h : GraphHistory) (pit meat1 meat2 setpoint : ℚ)
    (pitDisc meat1Disc meat2Disc : Bool) (hc : h.getCount < 240) :
    ∃ h1, h.addPoint pit meat1 meat2 setpoint pitDisc meat1Disc meat2Disc = some h1 ∧
      h1.getCount = h.getCount + 1 ∧
      h1.getSlot h.getCount =
        some { pit := pit, meat1 := meat1, meat2 := meat2, setpoint := setpoint,
               pitValid := !pitDisc, meat1Valid := !meat1Disc, meat2Valid := !meat2Disc } ∧
      ∀ i, i < h.getCount →
        h1.getSlot i = h.getSlot i ∧ h1.getSlot i = some (h._buffer i) := by
  have hlt : h._count < GRAPH_HISTORY_SIZE := hc
  refine ⟨_, GraphHistory.addPoint_below h pit meat1 meat2 setpoint pitDisc meat1Disc
    meat2Disc hlt, rfl, ?_, ?_⟩
  · unfold GraphHistory.getSlot GraphHistory.getCount
    dsimp only
    rw [if_neg (by omega), if_pos hlt, Function.update_same]
  · intro i hi
    have hi' : i < h._count := hi
    have e1 : h.getSlot i = some (h._buffer i) := by
      unfold GraphHistory.getSlot
      rw [if_neg (by omega), if_pos (by omega)]
    refine ⟨?_, ?_⟩
    · rw [e1]
      unfold GraphHistory.getSlot
      dsimp only
      rw [if_neg (by omega), if_pos (by omega), Function.update_noteq (by omega)]
    · unfold GraphHistory.getSlot
      dsimp only
      rw [if_neg (by omega), if_pos (by omega), Function.update_noteq (by omega)]

/-- Instance of C16: a buffer holding two points, then a third one. -/
theorem addPoint_below_capacity_appends_witness :
    ∃ h1,
      GraphHistory.addPoint
        { _buffer := fun i =>
            { pit := 200 + i, meat1 := 0, meat2 := 0, setpoint := 225,
              pitValid := true, meat1Valid := false, meat2Valid := false },
          _count := 2 }
        250 150 0 225 false false true = some h1 ∧
      h1.getCount = 3 ∧
      h1.getSlot 2 =
        some { pit := 250, meat1 := 150, meat2 := 0, setpoint := 225,
               pitValid := true, meat1Valid := true, meat2Valid := false } := by
  obtain ⟨h1, hadd, hcnt, hnew, _⟩ :=
    addPoint_below_capacity_appends
      { _buffer := fun i =>
          { pit := 200 + i, meat1 := 0, meat2 := 0, setpoint := 225,
            pitValid := true, meat1Valid := false, meat2Valid := false },
        _count := 2 }
      250 150 0 225 false false true (by decide)
  exact ⟨h1, hadd, hcnt, hnew⟩

/-! ## Theorems: PidController suspension, hysteresis and guards -/

theorem PidController.clampOutput_value (c : PidController) :
    c.clampOutput._pidOutput =
      if c._pidOutput < 0 then 0 else if c._pidOutput > 100 then 100 else c._pidOutput := by
  unfold PidController.clampOutput
  simp only [PID_OUTPUT_MIN, PID_OUTPUT_MAX]
  by_cases h1 : c._pidOutput < 0
  · norm_num [h1]
  · by_cases h2 : c._pidOutput > 100
    · simp only [h1, h2, if_false, if_true]
    · simp only [h1, h2, if_false]

/-- A `compute` call that leaves the lid OPEN returns 0. -/
theorem PidController.compute_zero_of_open_after (c : PidController) (t s a : ℚ)
    (h : (c.compute t s a).1._lidState = LidState.OPEN) : (c.compute t s a).2 = 0 := by
  unfold PidController.compute at h ⊢
  dsimp only at h ⊢
  cases he : c._enabled
  · rfl
  · simp only [he, Bool.not_true, Bool.false_eq_true, if_false] at h ⊢
    by_cases hl : (c.updateLidState t s)._lidState = LidState.OPEN
    · rw [if_pos hl]
    · rw [if_neg hl, PidController.clampOutput_lidState] at h
      exact absurd h hl

/-- An enabled `compute` call that leaves the lid CLOSED returns the clamped algorithm
output. -/
theorem PidController.compute_clamped_of_closed_after (c : PidController) (t s a : ℚ)
    (hen : c._enabled = true)
    (h : (c.updateLidState t s)._lidState ≠ LidState.OPEN) :
    (c.compute t s a).2 = if a < 0 then 0 else if a > 100 then 100 else a := by
  unfold PidController.compute
  dsimp only
  simp only [hen, Bool.not_true, Bool.false_eq_true, if_false]
  rw [if_neg h, PidController.clampOutput_value]

theorem PidController.updateLidState_of_nonpos (c : PidController) (t s : ℚ) (hs : s ≤ 0) :
    c.updateLidState t s = c := by
  unfold PidController.updateLidState
  rw [if_pos hs]

/-- C17, as stated, fails: the controller reached by `begin` and `compute(200, 225)` is
enabled with the lid OPEN, and `compute(225, 225)` on it returns 50 when the
control-algorithm step leaves 50 in the output. -/
theorem pid_suspension_counterexample :
    (((({ _kp := 0, _ki := 0, _kd := 0, _pidInput := 0, _pidOutput := 0, _pidSetpoint := 0,
          _lidState := LidState.CLOSED, _enabled := true,
          _lastComputeMs := 0 } : PidController).begin 4 0.02 5 0).compute 200 225 50).1
      = { _kp := 4, _ki := 0.02, _kd := 5, _pidInput := 0, _pidOutput := 0,
          _pidSetpoint := 0, _lidState := LidState.OPEN, _enabled := true,
          _lastComputeMs := 0 }) ∧
    (({ _kp := 4, _ki := 0.02, _kd := 5, _pidInput := 0, _pidOutput := 0,
        _pidSetpoint := 0, _lidState := LidState.OPEN, _enabled := true,
        _lastComputeMs := 0 } : PidController).compute 225 225 50).2 = 50 := by
  constructor
  · norm_num [PidController.compute, PidController.begin, PidController.updateLidState,
      LID_OPEN_DROP_PCT, LID_OPEN_RECOVER_PCT]
  · norm_num [PidController.compute, PidController.updateLidState,
      PidController.clampOutput, LID_OPEN_DROP_PCT, LID_OPEN_RECOVER_PCT,
      PID_OUTPUT_MIN, PID_OUTPUT_MAX]
    rw [if_neg (by decide)]

/-- C17 (amended): a `compute` call that leaves the lid OPEN returns exactly 0; for an
enabled controller whose lid is OPEN that is the case for every setpoint ≤ 0 and,
for a setpoint > 0, for every currentTemp < setpoint × 0.98. For a setpoint > 0 and
currentTemp ≥ setpoint × 0.98 the call closes the lid and returns the
control-algorithm output clamped to [0,100]. -/
theorem pid_suspension_while_open (c : PidController) (currentTemp setpoint algoOut : ℚ)
    (hen : c.isEnabled = true) (hopen : c.isLidOpen = true) :
    ((c.compute currentTemp setpoint algoOut).1.isLidOpen = true →
      (c.compute currentTemp setpoint algoOut).2 = 0) ∧
    (setpoint ≤ 0 ∨ currentTemp < setpoint * 0.98 →
      (c.compute currentTemp setpoint algoOut).1.isLidOpen = true ∧
      (c.compute currentTemp setpoint algoOut).2 = 0) ∧
    (0 < setpoint → currentTemp ≥ setpoint * 0.98 →
      (c.compute currentTemp setpoint algoOut).1.isLidOpen = false ∧
      (c.compute currentTemp setpoint algoOut).2 =
        if algoOut < 0 then 0 else if algoOut > 100 then 100 else algoOut) := by
  have hen1 : c._enabled = true := hen
  have ho : c._lidState = LidState.OPEN := by
    simpa [PidController.isLidOpen] using hopen
  have hlid := PidController.compute_lidState_of_enabled c currentTemp setpoint algoOut hen1
  refine ⟨?_, ?_, ?_⟩
  · intro h
    apply PidController.compute_zero_of_open_after
    simpa [PidController.isLidOpen] using h
  · intro h
    have hafter : (c.compute currentTemp setpoint algoOut).1._lidState = LidState.OPEN := by
      rw [hlid]
      rcases h with h | h
      · rw [PidController.updateLidState_of_nonpos c currentTemp setpoint h]
        exact ho
      · by_cases hs : setpoint ≤ 0
        · rw [PidController.updateLidState_of_nonpos c currentTemp setpoint hs]
          exact ho
        · exact (PidController.updateLidState_open_iff c currentTemp setpoint
            (not_le.mp hs)).mpr (Or.inr ⟨ho, h⟩)
    refine ⟨?_, PidController.compute_zero_of_open_after c _ _ _ hafter⟩
    simpa [PidController.isLidOpen] using hafter
  · intro hs hge
    have hnot : (c.updateLidState currentTemp setpoint)._lidState ≠ LidState.OPEN := by
      intro hcontra
      rcases (PidController.updateLidState_open_iff c currentTemp setpoint hs).mp hcontra
        with ⟨hcl, _⟩ | ⟨_, hlt⟩
      · rw [ho] at hcl
        exact LidState.noConfusion hcl
      · exact absurd hge (not_le.mpr hlt)
    refine ⟨?_, PidController.compute_clamped_of_closed_after c _ _ _ hen1 hnot⟩
    unfold PidController.isLidOpen
    rw [hlid]
    simpa using hnot

/-- Instance of C17 (amended): enabled controller, lid OPEN, temperature 216 at
setpoint 225. -/
theorem pid_suspension_while_open_witness :
    (({ _kp := 4, _ki := 0.02, _kd := 5, _pidInput := 0, _pidOutput := 0,
        _pidSetpoint := 0, _lidState := LidState.OPEN, _enabled := true,
        _lastComputeMs := 0 } : PidController).compute 216 225 50).2 = 0 :=
  ((pid_suspension_while_open
    { _kp := 4, _ki := 0.02, _kd := 5, _pidInput := 0, _pidOutput := 0,
      _pidSetpoint := 0, _lidState := LidState.OPEN, _enabled := true,
      _lastComputeMs := 0 } 216 225 50 rfl rfl).2.1 (Or.inr (by norm_num))).2

/-- C18, as stated, fails: with the lid CLOSED, `compute(t, 225)` at t exactly equal
to 225 × 0.94 = 211.5 leaves the lid CLOSED, the comparison with the drop threshold
being strict. -/
theorem lid_hysteresis_225_counterexample :
    (211.5 : ℚ) = 225 * 0.94 ∧
    (({ _kp := 4, _ki := 0.02, _kd := 5, _pidInput := 0, _pidOutput := 0,
        _pidSetpoint := 0, _lidState := LidState.CLOSED, _enabled := true,
        _lastComputeMs := 0 } : PidController).compute 211.5 225 50).1.isLidOpen = false := by
  constructor
  · norm_num
  · norm_num [PidController.compute, PidController.updateLidState,
      PidController.clampOutput, PidController.isLidOpen, LID_OPEN_DROP_PCT,
      LID_OPEN_RECOVER_PCT, PID_OUTPUT_MIN, PID_OUTPUT_MAX]
    rw [if_neg (by decide)]
    exact fun h => LidState.noConfusion h

/-- C18 (amended): for an enabled controller with the lid CLOSED, `compute(t, 225)`
leaves the lid OPEN exactly when t < 225 × 0.94, so t equal to 225 × 0.94 leaves it
CLOSED; once OPEN, `compute(t, 225)` keeps it OPEN exactly when t < 225 × 0.98
(for instance at t = 0.96 × 225, which is above the drop threshold) and closes it
exactly when t ≥ 225 × 0.98. -/
theorem lid_hysteresis_225 (c : PidController) (t algoOut : ℚ) (hen : c.isEnabled = true) :
    (c._lidState = LidState.CLOSED →
      ((c.compute t 225 algoOut).1.isLidOpen = true ↔ t < 225 * 0.94) ∧
      (c.compute (225 * 0.94) 225 algoOut).1.isLidOpen = false) ∧
    (c._lidState = LidState.OPEN →
      ((c.compute t 225 algoOut).1.isLidOpen = true ↔ t < 225 * 0.98) ∧
      ((c.compute t 225 algoOut).1.isLidOpen = false ↔ t ≥ 225 * 0.98) ∧
      (225 * 0.94 : ℚ) < 0.96 * 225 ∧
      (c.compute (0.96 * 225) 225 algoOut).1.isLidOpen = true) := by
  have hen1 : c._enabled = true := hen
  have key : ∀ x : ℚ, (c.compute x 225 algoOut).1.isLidOpen = true ↔
      (c._lidState = LidState.CLOSED ∧ x < 225 * 0.94) ∨
      (c._lidState = LidState.OPEN ∧ x < 225 * 0.98) := by
    intro x
    unfold PidController.isLidOpen
    rw [PidController.compute_lidState_of_enabled c x 225 algoOut hen1, decide_eq_true_iff]
    exact PidController.updateLidState_open_iff c x 225 (by norm_num)
  have hfalse : ∀ x : ℚ, (c.compute x 225 algoOut).1.isLidOpen = false ↔
      ¬ (c.compute x 225 algoOut).1.isLidOpen = true := by
    intro x
    cases (c.compute x 225 algoOut).1.isLidOpen <;> simp
  refine ⟨?_, ?_⟩
  · intro hcl
    have hne : ¬ c._lidState = LidState.OPEN := by
      rw [hcl]
      exact fun h => LidState.noConfusion h
    refine ⟨?_, ?_⟩
    · rw [key t]
      constructor
      · rintro (⟨_, h⟩ | ⟨h, _⟩)
        · exact h
        · exact absurd h hne
      · intro h
        exact Or.inl ⟨hcl, h⟩
    · rw [hfalse, key]
      rintro (⟨_, h⟩ | ⟨h, _⟩)
      · exact absurd h (lt_irrefl _)
      · exact absurd h hne
  · intro hop
    have hne : ¬ c._lidState = LidState.CLOSED := by
      rw [hop]
      exact fun h => LidState.noConfusion h
    have hiff : (c.compute t 225 algoOut).1.isLidOpen = true ↔ t < 225 * 0.98 := by
      rw [key t]
      constructor
      · rintro (⟨h, _⟩ | ⟨_, h⟩)
        · exact absurd h hne
        · exact h
      · intro h
        exact Or.inr ⟨hop, h⟩
    refine ⟨hiff, ?_, by norm_num, ?_⟩
    · rw [hfalse, hiff, not_lt]
    · rw [key]
      exact Or.inr ⟨hop, by norm_num⟩

/-- Instance of C18 (amended): enabled controller, lid CLOSED, temperature 200 at
setpoint 225. -/
theorem lid_hysteresis_225_witness :
    (({ _kp := 4, _ki := 0.02, _kd := 5, _pidInput := 0, _pidOutput := 0,
        _pidSetpoint := 0, _lidState := LidState.CLOSED, _enabled := true,
        _lastComputeMs := 0 } : PidController).compute 200 225 50).1.isLidOpen = true :=
  ((lid_hysteresis_225
    { _kp := 4, _ki := 0.02, _kd := 5, _pidInput := 0, _pidOutput := 0,
      _pidSetpoint := 0, _lidState := LidState.CLOSED, _enabled := true,
      _lastComputeMs := 0 } 200 50 rfl).1 rfl).1.mpr (by norm_num)

theorem PidController.compute_frame_of_disabled (c : PidController) (t s a : ℚ)
    (h : c._enabled = false) :
    c.compute t s a = ({ c with _pidOutput := 0 }, 0) := by
  unfold PidController.compute
  simp only [h, Bool.not_false, if_true]

/-- C19: for every setpoint ≤ 0 and every currentTemp, `compute` leaves the lid state
exactly as it was, `updateLidState` returning at its first statement with the object
unchanged and no threshold computed. -/
theorem nonpositive_setpoint_disables_lid_detection (c : PidController)
    (currentTemp setpoint algoOut : ℚ) (hsp : setpoint ≤ 0) :
    (c.compute currentTemp setpoint algoOut).1._lidState = c._lidState ∧
    (c.compute currentTemp setpoint algoOut).1.isLidOpen = c.isLidOpen ∧
    c.updateLidState currentTemp setpoint = c ∧
    PidController.lidThresholds setpoint = none := by
  have hlid : (c.compute currentTemp setpoint algoOut).1._lidState = c._lidState := by
    cases he : c._enabled
    · rw [PidController.compute_frame_of_disabled c _ _ _ he]
    · rw [PidController.compute_lidState_of_enabled c _ _ _ he,
        PidController.updateLidState_of_nonpos c _ _ hsp]
  refine ⟨hlid, ?_, PidController.updateLidState_of_nonpos c _ _ hsp, ?_⟩
  · unfold PidController.isLidOpen
    rw [hlid]
  · unfold PidController.lidThresholds
    rw [if_pos hsp]

/-- Instance of C19: enabled controller with the lid OPEN, setpoint 0, temperature 300. -/
theorem nonpositive_setpoint_disables_lid_detection_witness :
    (({ _kp := 4, _ki := 0.02, _kd := 5, _pidInput := 0, _pidOutput := 0,
        _pidSetpoint := 0, _lidState := LidState.OPEN, _enabled := true,
        _lastComputeMs := 0 } : PidController).compute 300 0 50).1._lidState =
      LidState.OPEN :=
  (nonpositive_setpoint_disables_lid_detection
    { _kp := 4, _ki := 0.02, _kd := 5, _pidInput := 0, _pidOutput := 0,
      _pidSetpoint := 0, _lidState := LidState.OPEN, _enabled := true,
      _lastComputeMs := 0 } 300 0 50 (le_refl _)).1

/-- C20: when `isEnabled()` is false, `compute` returns 0 for every input and leaves
the lid state, the three gains and the enabled flag unchanged; the only member it
writes is the output, set to 0. -/
theorem disabled_compute_frame (c : PidController) (currentTemp setpoint algoOut : ℚ)
    (hdis : c.isEnabled = false) :
    (c.compute currentTemp setpoint algoOut).2 = 0 ∧
    (c.compute currentTemp setpoint algoOut).1._lidState = c._lidState ∧
    (c.compute currentTemp setpoint algoOut).1._kp = c._kp ∧
    (c.compute currentTemp setpoint algoOut).1._ki = c._ki ∧
    (c.compute currentTemp setpoint algoOut).1._kd = c._kd ∧
    (c.compute currentTemp setpoint algoOut).1.isEnabled = false ∧
    (c.compute currentTemp setpoint algoOut).1 = { c with _pidOutput := 0 } := by
  have h : c._enabled = false := hdis
  rw [PidController.compute_frame_of_disabled c _ _ _ h]
  exact ⟨rfl, rfl, rfl, rfl, rfl, hdis, rfl⟩

/-- Instance of C20: disabled controller with the lid CLOSED, temperature 100 at
setpoint 225 (below the drop threshold). -/
theorem disabled_compute_frame_witness :
    (({ _kp := 4, _ki := 0.02, _kd := 5, _pidInput := 0, _pidOutput := 0,
        _pidSetpoint := 0, _lidState := LidState.CLOSED, _enabled := false,
        _lastComputeMs := 0 } : PidController).compute 100 225 50).2 = 0 ∧
    (({ _kp := 4, _ki := 0.02, _kd := 5, _pidInput := 0, _pidOutput := 0,
        _pidSetpoint := 0, _lidState := LidState.CLOSED, _enabled := false,
        _lastComputeMs := 0 } : PidController).compute 100 225 50).1._lidState =
      LidState.CLOSED :=
  have h := disabled_compute_frame
    { _kp := 4, _ki := 0.02, _kd := 5, _pidInput := 0, _pidOutput := 0,
      _pidSetpoint := 0, _lidState := LidState.CLOSED, _enabled := false,
      _lastComputeMs := 0 } 100 225 50 rfl
  ⟨h.1, h.2.1⟩

/-! ## Theorems: TempManager accessors, gating and the zero inverse temperature -/

/-- C21: for a probe index < 3 with status OK, `getTempC` returns the stored filtered
Celsius value and `getTemp` returns it as c × 9/5 + 32 when Fahrenheit is selected,
unchanged otherwise; for a status OPEN_CIRCUIT or SHORT_CIRCUIT and for every index
≥ 3 both return 0 whatever the stored value; `isConnected` is false exactly when the
status is not OK or the index is out of range. The accessors are total, every array
index being guarded by `probe >= NUM_PROBES`. -/
theorem temperature_accessors (m : TempManager) (probe : Nat) :
    (probe < 3 → m._status probe = ProbeStatus.OK →
      m.getTempC probe = m._filteredTempC probe ∧
      m.getTemp probe =
        (if m._useFahrenheit = true then m._filteredTempC probe * 9 / 5 + 32
          else m._filteredTempC probe)) ∧
    ((m._status probe = ProbeStatus.OPEN_CIRCUIT ∨
        m._status probe = ProbeStatus.SHORT_CIRCUIT ∨ probe ≥ 3) →
      m.getTempC probe = 0 ∧ m.getTemp probe = 0) ∧
    (m.isConnected probe = false ↔ (m._status probe ≠ ProbeStatus.OK ∨ probe ≥ 3)) ∧
    (probe ≥ 3 → m.getStatus probe = ProbeStatus.OPEN_CIRCUIT) ∧
    (probe < 3 → m.getStatus probe = m._status probe) := by
  refine ⟨?_, ?_, ?_, ?_, ?_⟩
  · intro hp hs
    have hnp : ¬ probe ≥ NUM_PROBES := not_le.mpr hp
    unfold TempManager.getTempC TempManager.getTemp celsiusToFahrenheit
    rw [if_neg hnp, if_neg hnp, if_neg (not_not.mpr hs), if_neg (not_not.mpr hs)]
    exact ⟨rfl, rfl⟩
  · intro h
    unfold TempManager.getTempC TempManager.getTemp
    by_cases hp : probe ≥ NUM_PROBES
    · rw [if_pos hp, if_pos hp]
      exact ⟨rfl, rfl⟩
    · have hs : m._status probe ≠ ProbeStatus.OK := by
        rcases h with h | h | h
        · rw [h]
          exact fun e => ProbeStatus.noConfusion e
        · rw [h]
          exact fun e => ProbeStatus.noConfusion e
        · exact absurd h hp
      rw [if_neg hp, if_neg hp, if_pos hs, if_pos hs]
      exact ⟨rfl, rfl⟩
  · unfold TempManager.isConnected
    by_cases hp : probe ≥ NUM_PROBES
    · rw [if_pos hp]
      exact ⟨fun _ => Or.inr hp, fun _ => rfl⟩
    · rw [if_neg hp, decide_eq_false_iff_not]
      constructor
      · intro h
        exact Or.inl h
      · rintro (h | h)
        · exact h
        · exact absurd h hp
  · intro hp
    have hp' : probe ≥ NUM_PROBES := hp
    unfold TempManager.getStatus
    rw [if_pos hp']
  · intro hp
    have hnp : ¬ probe ≥ NUM_PROBES := not_le.mpr hp
    unfold TempManager.getStatus
    rw [if_neg hnp]

/-- C25: with `now` and the last sample time 32-bit values, a call of `update` at
which (now − lastSampleTime) modulo 2^32 is below 1000 changes nothing at all; when
the difference is at least 1000, the loop body runs once for each of the probes 0,
1, 2 in turn, each on its own channel's sample, and the last sample time becomes
`now`. -/
theorem update_self_gating (logf : ℚ → ℚ) (m : TempManager) (now : Nat)
    (readADC : Nat → Int) (hnow : now < 2 ^ 32) (hlast : m._lastSampleMs < 2 ^ 32) :
    ((((now : Int) - (m._lastSampleMs : Int)) % 2 ^ 32 < 1000) →
      m.update logf now readADC = m) ∧
    ((((now : Int) - (m._lastSampleMs : Int)) % 2 ^ 32 ≥ 1000) →
      m.update logf now readADC =
        TempManager.sampleProbe logf
          (TempManager.sampleProbe logf
            (TempManager.sampleProbe logf { m with _lastSampleMs := now }
              0 (readADC ADC_CHANNEL_PIT))
            1 (readADC ADC_CHANNEL_MEAT1))
          2 (readADC ADC_CHANNEL_MEAT2) ∧
      (m.update logf now readADC)._lastSampleMs = now ∧
      ∀ i, i < NUM_PROBES →
        (m.update logf now readADC)._rawADC i = readADC (TempManager._adcChannels i)) := by
  have hmod : (((now : Int) - (m._lastSampleMs : Int)) % 2 ^ 32) =
      (((now + 2 ^ 32 - m._lastSampleMs) % 2 ^ 32 : Nat) : Int) := by
    omega
  refine ⟨?_, ?_⟩
  · intro h
    apply TempManager.update_not_due
    unfold TempManager.isDue TEMP_SAMPLE_INTERVAL_MS
    omega
  · intro h
    have hdue : m.isDue now := by
      unfold TempManager.isDue TEMP_SAMPLE_INTERVAL_MS
      omega
    refine ⟨TempManager.update_due logf m now readADC hdue,
      TempManager.update_lastSampleMs logf m now readADC hdue, ?_⟩
    intro i hi
    have hag := TempManager.update_due_agree logf m now readADC hdue i hi
    rw [hag.1]
    exact (TempManager.sampleProbe_at logf m i _).1

/-- Instance of C25: a manager last sampled at 5000 is called again at 5400. -/
theorem update_self_gating_witness :
    ({ TempManager.ctor with _lastSampleMs := 5000 } : TempManager).update
        (fun _ => 0) 5400 (fun _ => 16000) =
      { TempManager.ctor with _lastSampleMs := 5000 } :=
  (update_self_gating (fun _ => 0) { TempManager.ctor with _lastSampleMs := 5000 } 5400
    (fun _ => 16000) (by norm_num) (by norm_num)).1 (by norm_num)

/-- C27: when A + B·ln(R) + C·ln(R)³ is exactly 0, `resistanceToTempC` returns 0 without
dividing; a sampling tick on which this happens for a non-fault raw value sets the
probe's status to OK, and the value entering the smoothing step is 0 plus the
probe's offset: stored as it is when the first-reading flag is set, blended with
the previous filtered value otherwise. -/
theorem zero_inverse_temperature_fallback (logf : ℚ → ℚ) (m : TempManager) (now : Nat)
    (readADC : Nat → Int) (i : Nat) (hi : i < NUM_PROBES) (hdue : m.isDue now)
    (hok : ¬ TempManager.isFaultRaw (readADC (TempManager._adcChannels i)))
    (hinv : (m._probeConfig i).a +
        (m._probeConfig i).b *
          logf (TempManager.adcToResistance (readADC (TempManager._adcChannels i))) +
        (m._probeConfig i).c *
          (logf (TempManager.adcToResistance (readADC (TempManager._adcChannels i))) *
            logf (TempManager.adcToResistance (readADC (TempManager._adcChannels i))) *
            logf (TempManager.adcToResistance (readADC (TempManager._adcChannels i)))) = 0) :
    TempManager.resistanceToTempC logf
        (TempManager.adcToResistance (readADC (TempManager._adcChannels i)))
        (m._probeConfig i) = 0 ∧
    TempManager.resistanceToTempCDivisor logf
        (TempManager.adcToResistance (readADC (TempManager._adcChannels i)))
        (m._probeConfig i) = none ∧
    (m.update logf now readADC).getStatus i = ProbeStatus.OK ∧
    TempManager.convertedReading logf m i (readADC (TempManager._adcChannels i)) =
      0 + (m._probeConfig i).offset ∧
    (m._firstReading i = true →
      (m.update logf now readADC)._filteredTempC i = 0 + (m._probeConfig i).offset) ∧
    (m._firstReading i = false →
      (m.update logf now readADC)._filteredTempC i =
        m._emaAlpha * (0 + (m._probeConfig i).offset) +
          (1 - m._emaAlpha) * m._filteredTempC i) := by
  have hzero : TempManager.resistanceToTempC logf
      (TempManager.adcToResistance (readADC (TempManager._adcChannels i)))
      (m._probeConfig i) = 0 := by
    unfold TempManager.resistanceToTempC
    dsimp only
    rw [if_pos hinv]
  have hconv : TempManager.convertedReading logf m i
      (readADC (TempManager._adcChannels i)) = 0 + (m._probeConfig i).offset := by
    unfold TempManager.convertedReading
    rw [hzero]
  obtain ⟨hconn, _, hfirst, hblend⟩ :=
    TempManager.update_valid_step logf m now readADC i hi hdue hok
  refine ⟨hzero, ?_, ?_, hconv, ?_, ?_⟩
  · unfold TempManager.resistanceToTempCDivisor
    dsimp only
    rw [if_pos hinv]
  · have hnp : ¬ i ≥ NUM_PROBES := not_le.mpr hi
    unfold TempManager.isConnected at hconn
    rw [if_neg hnp, decide_eq_true_iff] at hconn
    unfold TempManager.getStatus
    rw [if_neg hnp]
    exact hconn
  · intro h
    rw [hfirst h, hconv]
  · intro h
    rw [hblend h, hconv]

/-- Instance of C27: coefficients A = 0, B = 1, C = 0 with `logf` constant 0 and a
calibration offset of 2 °C on every probe; first sampling tick, pit probe raw
16000. -/
theorem zero_inverse_temperature_fallback_witness :
    (({ TempManager.ctor with
          _probeConfig := fun _ => { a := 0, b := 1, c := 0, offset := 2 } } :
        TempManager).update (fun _ => 0) 1000 (fun _ => 16000)).getStatus 0 =
      ProbeStatus.OK ∧
    (({ TempManager.ctor with
          _probeConfig := fun _ => { a := 0, b := 1, c := 0, offset := 2 } } :
        TempManager).update (fun _ => 0) 1000 (fun _ => 16000))._filteredTempC 0 =
      0 + 2 :=
  have h := zero_inverse_temperature_fallback (fun _ => 0)
    { TempManager.ctor with
      _probeConfig := fun _ => { a := 0, b := 1, c := 0, offset := 2 } }
    1000 (fun _ => 16000) 0 (by decide) (by decide)
    (TempManager.not_isFaultRaw_of_between 16000 (by decide) (by decide))
    (by norm_num)
  ⟨h.2.2.1, h.2.2.2.2.1 rfl⟩

/-! ## Theorems: lid update idempotence, fan below damper -/

theorem PidController.updateLidState_lidState_congr (c c' : PidController) (t s : ℚ)
    (h : c._lidState = c'._lidState) :
    (c.updateLidState t s)._lidState = (c'.updateLidState t s)._lidState := by
  unfold PidController.updateLidState
  dsimp only
  by_cases hs : s ≤ 0
  · rw [if_pos hs, if_pos hs]
    exact h
  · rw [if_neg hs, if_neg hs]
    rw [← h]
    cases hl : c._lidState <;> dsimp only <;> split_ifs <;> first | rfl | exact h

theorem PidController.updateLidState_closed (c : PidController) (t s : ℚ) (hs : 0 < s)
    (hl : c._lidState = LidState.CLOSED) :
    c.updateLidState t s =
      if t < s * (1 - LID_OPEN_DROP_PCT / 100) then { c with _lidState := LidState.OPEN }
      else c := by
  unfold PidController.updateLidState
  dsimp only
  rw [if_neg (not_le.mpr hs), hl]

theorem PidController.updateLidState_open (c : PidController) (t s : ℚ) (hs : 0 < s)
    (hl : c._lidState = LidState.OPEN) :
    c.updateLidState t s =
      if t ≥ s * (1 - LID_OPEN_RECOVER_PCT / 100) then { c with _lidState := LidState.CLOSED }
      else c := by
  unfold PidController.updateLidState
  dsimp only
  rw [if_neg (not_le.mpr hs), hl]

theorem PidController.updateLidState_idem (c : PidController) (t s : ℚ) :
    (c.updateLidState t s).updateLidState t s = c.updateLidState t s := by
  by_cases hs : s ≤ 0
  · rw [PidController.updateLidState_of_nonpos c t s hs,
      PidController.updateLidState_of_nonpos c t s hs]
  · have hpos : 0 < s := not_le.mp hs
    have h94 : s * (1 - LID_OPEN_DROP_PCT / 100) < s * (1 - LID_OPEN_RECOVER_PCT / 100) := by
      apply mul_lt_mul_of_pos_left _ hpos
      norm_num [LID_OPEN_DROP_PCT, LID_OPEN_RECOVER_PCT]
    cases hl : c._lidState
    · rw [PidController.updateLidState_closed c t s hpos hl]
      by_cases h : t < s * (1 - LID_OPEN_DROP_PCT / 100)
      · rw [if_pos h, PidController.updateLidState_open _ t s hpos rfl,
          if_neg (not_le.mpr (lt_trans h h94))]
      · rw [if_neg h, PidController.updateLidState_closed c t s hpos hl, if_neg h]
    · rw [PidController.updateLidState_open c t s hpos hl]
      by_cases h : t ≥ s * (1 - LID_OPEN_RECOVER_PCT / 100)
      · rw [if_pos h, PidController.updateLidState_closed _ t s hpos rfl,
          if_neg (not_lt.mpr (le_trans h94.le h))]
      · rw [if_neg h, PidController.updateLidState_open c t s hpos hl, if_neg h]

theorem PidController.compute_enabled (c : PidController) (t s a : ℚ) :
    (c.compute t s a).1._enabled = c._enabled := by
  unfold PidController.compute
  dsimp only
  split_ifs
  · rfl
  · exact PidController.updateLidState_enabled c t s
  · rw [PidController.clampOutput_enabled]
    exact PidController.updateLidState_enabled c t s

/-- C28: for every lid state, currentTemp and setpoint, applying the lid-state update
twice with the same (currentTemp, setpoint) gives the same state as applying it
once; the same holds for the lid state after two consecutive `compute` calls with
that input, whatever the control-algorithm outputs. -/
theorem lid_update_idempotent (c : PidController) (currentTemp setpoint : ℚ) :
    (c.updateLidState currentTemp setpoint).updateLidState currentTemp setpoint =
      c.updateLidState currentTemp setpoint ∧
    ∀ a b : ℚ,
      ((c.compute currentTemp setpoint a).1.compute currentTemp setpoint b).1._lidState =
        (c.compute currentTemp setpoint a).1._lidState := by
  refine ⟨PidController.updateLidState_idem c currentTemp setpoint, ?_⟩
  intro a b
  cases he : c._enabled
  · have he1 : (c.compute currentTemp setpoint a).1._enabled = false := by
      rw [PidController.compute_enabled, he]
    rw [PidController.compute_frame_of_disabled _ _ _ _ he1]
  · have he1 : (c.compute currentTemp setpoint a).1._enabled = true := by
      rw [PidController.compute_enabled, he]
    rw [PidController.compute_lidState_of_enabled _ _ _ b he1,
      PidController.compute_lidState_of_enabled c _ _ a he]
    rw [PidController.updateLidState_lidState_congr _
      (c.updateLidState currentTemp setpoint) currentTemp setpoint
      (PidController.compute_lidState_of_enabled c _ _ a he)]
    rw [PidController.updateLidState_idem]

/-- With exact arithmetic, for every mode string, every pidOutput in [0,100] and every
fanOnThreshold in [0,100], the result of `splitRange` has fanPercent ≤ damperPercent. -/
theorem splitRange_fan_le_damper_exact (fanMode : String) (pidOutput fanOnThreshold : ℚ)
    (hp : 0 ≤ pidOutput ∧ pidOutput ≤ 100)
    (ht : 0 ≤ fanOnThreshold ∧ fanOnThreshold ≤ 100) :
    (splitRange pidOutput fanMode fanOnThreshold).fanPercent ≤
      (splitRange pidOutput fanMode fanOnThreshold).damperPercent := by
  obtain ⟨hp0, hp1⟩ := hp
  obtain ⟨ht0, _⟩ := ht
  unfold splitRange
  dsimp only
  by_cases hm1 : fanMode = "fan_only"
  · rw [if_pos hm1]
    exact hp1
  · rw [if_neg hm1]
    by_cases hm2 : fanMode = "damper_primary"
    · rw [if_pos hm2]
      by_cases hgt : pidOutput > max fanOnThreshold 50
      · rw [if_pos hgt]
        exact (splitRange_scale_range pidOutput _ hgt hp1).2
      · rw [if_neg hgt]
        exact hp0
    · rw [if_neg hm2]
      by_cases hgt : pidOutput > fanOnThreshold
      · rw [if_pos hgt]
        have hd : 0 < 100 - fanOnThreshold := by linarith
        show (pidOutput - fanOnThreshold) / (100 - fanOnThreshold) * 100 ≤ pidOutput
        rw [div_mul_eq_mul_div, div_le_iff₀ hd]
        nlinarith [mul_nonneg ht0 (sub_nonneg.mpr hp1)]
      · rw [if_neg hgt]
        exact hp0

/-! ## Theorems: GraphHistory clear, getSlot and condense -/

theorem GraphHistory.getSlot_of_ge (h : GraphHistory) (index : Nat) (hi : index ≥ h._count) :
    h.getSlot index = some GraphHistory.emptySlot := by
  unfold GraphHistory.getSlot
  rw [if_pos hi]

theorem GraphHistory.getSlot_of_lt (h : GraphHistory) (index : Nat) (hi : index < h._count)
    (hc : h._count ≤ GRAPH_HISTORY_SIZE) : h.getSlot index = some (h._buffer index) := by
  unfold GraphHistory.getSlot
  rw [if_neg (not_le.mpr hi), if_pos (lt_of_lt_of_le hi hc)]

/-- C22: after `clear()`, `getCount()` is 0 and `getSlot(i)` returns the empty slot for
every index i, and the next `addPoint` stores its point at index 0 with
`getCount() = 1`. -/
theorem clear_empties_history (h : GraphHistory) (pit meat1 meat2 setpoint : ℚ)
    (pitDisc meat1Disc meat2Disc : Bool) :
    h.clear.getCount = 0 ∧
    (∀ i, h.clear.getSlot i = some GraphHistory.emptySlot) ∧
    ∃ h1, h.clear.addPoint pit meat1 meat2 setpoint pitDisc meat1Disc meat2Disc = some h1 ∧
      h1.getCount = 1 ∧
      h1.getSlot 0 =
        some { pit := pit, meat1 := meat1, meat2 := meat2, setpoint := setpoint,
               pitValid := !pitDisc, meat1Valid := !meat1Disc, meat2Valid := !meat2Disc } := by
  refine ⟨rfl, fun i => GraphHistory.getSlot_of_ge _ i (Nat.zero_le _), ?_⟩
  have hlt : h.clear._count < GRAPH_HISTORY_SIZE := by
    show 0 < GRAPH_HISTORY_SIZE
    decide
  refine ⟨_, GraphHistory.addPoint_below h.clear pit meat1 meat2 setpoint pitDisc meat1Disc
    meat2Disc hlt, rfl, ?_⟩
  rw [GraphHistory.getSlot_of_lt _ 0 (by show 0 < 0 + 1; decide)
    (by show 0 + 1 ≤ GRAPH_HISTORY_SIZE; decide)]
  refine congrArg some ?_
  show Function.update h.clear._buffer 0 _ 0 = _
  exact Function.update_same _ _ _

/-- C23: in every state, for every index ≥ `getCount()` (indices ≥ 240 included)
`getSlot` returns the empty slot, all four values 0 and all three flags false,
whatever the array holds; for every index < `getCount()` it returns the stored slot,
in every state with `getCount() ≤ 240` and so in every state reached from the empty
buffer by `addPoint` and `clear` calls. -/
theorem getSlot_bounds_behaviour (h : GraphHistory) (index : Nat) :
    (index ≥ h.getCount →
      h.getSlot index =
        some { pit := 0, meat1 := 0, meat2 := 0, setpoint := 0,
               pitValid := false, meat1Valid := false, meat2Valid := false } ∧
      ∀ other : Nat → GraphSlot,
        ({ h with _buffer := other } : GraphHistory).getSlot index = h.getSlot index) ∧
    (index < h.getCount → h.getCount ≤ 240 → h.getSlot index = some (h._buffer index)) ∧
    (∀ (uninit : Nat → GraphSlot) (calls : List GraphCall) (hr : GraphHistory),
      graphRun (GraphHistory.ctor uninit) calls = some hr →
      ∀ i, i < hr.getCount → hr.getSlot i = some (hr._buffer i)) := by
  refine ⟨?_, ?_, ?_⟩
  · intro hge
    refine ⟨GraphHistory.getSlot_of_ge h index hge, ?_⟩
    intro other
    rw [GraphHistory.getSlot_of_ge h index hge]
    exact GraphHistory.getSlot_of_ge _ index hge
  · intro hlt hc
    exact GraphHistory.getSlot_of_lt h index hlt hc
  · intro uninit calls hr hrun i hi
    obtain ⟨h1, hrun1, hc1⟩ :=
      graphRun_capacity calls (GraphHistory.ctor uninit) (Nat.zero_le _)
    rw [hrun] at hrun1
    have heq : hr = h1 := Option.some.inj hrun1
    rw [← heq] at hc1
    exact GraphHistory.getSlot_of_lt hr i hi hc1

/-- C26: for every slot count c with 0 ≤ c ≤ 240, `condense` leaves exactly ceil(c/2)
slots (the least n with c ≤ 2n, which is (c+1)/2 in integer division); when c is
odd, the last resulting slot is the original final slot, unchanged in all four
values and all three flags. -/
theorem condense_size_and_odd_tail (h : GraphHistory) (hc : h.getCount ≤ 240) :
    ∃ h1, h.condense = some h1 ∧
      h1.getCount = (h.getCount + 1) / 2 ∧
      (h.getCount ≤ 2 * h1.getCount ∧ 2 * h1.getCount ≤ h.getCount + 1) ∧
      (h.getCount % 2 = 1 →
        h1.getSlot (h1.getCount - 1) = some (h._buffer (h.getCount - 1)) ∧
        h1.getSlot (h1.getCount - 1) = h.getSlot (h.getCount - 1)) := by
  have hc' : h._count ≤ GRAPH_HISTORY_SIZE := hc
  obtain ⟨h1, hcond, hcnt, hcf⟩ := GraphHistory.condense_spec h hc'
  have hcnt' : h1.getCount = (h.getCount + 1) / 2 := hcnt
  refine ⟨h1, hcond, hcnt', ?_, ?_⟩
  · rw [hcnt']
    omega
  · intro hodd
    have hodd' : h._count % 2 = 1 := hodd
    have hle1 : h1._count ≤ GRAPH_HISTORY_SIZE := by
      rw [hcnt]
      unfold GRAPH_HISTORY_SIZE at hc' ⊢
      omega
    have e1 : h1.getSlot (h1.getCount - 1) = some (h._buffer (h.getCount - 1)) := by
      have hidx : h1.getCount - 1 < h1._count := by
        show h1._count - 1 < h1._count
        rw [hcnt]
        omega
      rw [GraphHistory.getSlot_of_lt h1 _ hidx hle1]
      have hj : 2 * (h1.getCount - 1) + 1 = h._count := by
        show 2 * (h1._count - 1) + 1 = h._count
        rw [hcnt]
        omega
      rw [hcf.2.2.1 (h1.getCount - 1) (Nat.zero_le _) hj]
      congr 2
      show 2 * (h1._count - 1) = h._count - 1
      rw [hcnt]
      omega
    refine ⟨e1, ?_⟩
    rw [e1, GraphHistory.getSlot_of_lt h _ (by show h._count - 1 < h._count; omega) hc']

/-- Instance of C26: a buffer of five slots, slot `i` holding pit value `i`. -/
theorem condense_size_and_odd_tail_witness :
    ∃ h1,
      GraphHistory.condense
        { _buffer := fun i =>
            { pit := i, meat1 := 0, meat2 := 0, setpoint := 225,
              pitValid := true, meat1Valid := false, meat2Valid := false },
          _count := 5 } = some h1 ∧
      h1.getCount = 3 ∧
      h1.getSlot 2 =
        some { pit := 4, meat1 := 0, meat2 := 0, setpoint := 225,
               pitValid := true, meat1Valid := false, meat2Valid := false } := by
  obtain ⟨h1, hcond, hcnt, _, htail⟩ :=
    condense_size_and_odd_tail
      { _buffer := fun i =>
          { pit := i, meat1 := 0, meat2 := 0, setpoint := 225,
            pitValid := true, meat1Valid := false, meat2Valid := false },
        _count := 5 } (by decide)
  have hcnt3 : h1.getCount = 3 := hcnt
  refine ⟨h1, hcond, hcnt3, ?_⟩
  have h2 := (htail (by decide)).1
  rw [hcnt3] at h2
  rw [h2]
  norm_num [GraphHistory.getCount]

/-! ## Theorems: what condensation does to the newest points -/

theorem GraphCall.exec_of_slot_below (h : GraphHistory) (c : GraphCall) (s : GraphSlot)
    (hs : c.slot = some s) (hlt : h._count < GRAPH_HISTORY_SIZE) :
    c.exec h =
      some { _buffer := Function.update h._buffer h._count s, _count := h._count + 1 } := by
  cases c with
  | clear => exact Option.noConfusion hs
  | addPoint p m1 m2 sp pd m1d m2d =>
      have hs' := Option.some.inj hs
      subst hs'
      exact GraphHistory.addPoint_below h p m1 m2 sp pd m1d m2d hlt

/-- Appending `n ≤ 240` points to an empty buffer stores them in order. -/
theorem graphRun_fill (uninit : Nat → GraphSlot) (g : Nat → GraphCall) (sl : Nat → GraphSlot)
    (n : Nat) (hn : n ≤ GRAPH_HISTORY_SIZE) (hg : ∀ i, i < n → (g i).slot = some (sl i)) :
    ∃ h, graphRun (GraphHistory.ctor uninit) ((List.range n).map g) = some h ∧
      h._count = n ∧ ∀ i, i < n → h._buffer i = sl i := by
  induction n with
  | zero =>
      refine ⟨GraphHistory.ctor uninit, rfl, rfl, ?_⟩
      intro i hi
      exact absurd hi (Nat.not_lt_zero i)
  | succ n ih =>
      obtain ⟨h, hrun, hcnt, hbuf⟩ :=
        ih (Nat.le_of_succ_le hn) (fun i hi => hg i (Nat.lt_succ_of_lt hi))
      have hlt : h._count < GRAPH_HISTORY_SIZE := by
        rw [hcnt]
        exact hn
      have hex := GraphCall.exec_of_slot_below h (g n) (sl n) (hg n (Nat.lt_succ_self n)) hlt
      refine ⟨{ _buffer := Function.update h._buffer h._count (sl n),
                _count := h._count + 1 }, ?_, ?_, ?_⟩
      · rw [List.range_succ, List.map_append, graphRun_append, hrun]
        show graphRun h [g n] = _
        rw [graphRun_cons, hex]
        rfl
      · show h._count + 1 = n + 1
        rw [hcnt]
      · intro i hi
        show Function.update h._buffer h._count (sl n) i = sl i
        rw [hcnt]
        by_cases hin : i = n
        · rw [hin, Function.update_same]
        · rw [Function.update_noteq hin]
          exact hbuf i (by omega)

theorem GraphHistory.getSlot_update_same (buf : Nat → GraphSlot) (n : Nat) (s : GraphSlot)
    (cnt : Nat) (hn : n < cnt) (hc : cnt ≤ GRAPH_HISTORY_SIZE) :
    GraphHistory.getSlot { _buffer := Function.update buf n s, _count := cnt } n = some s := by
  unfold GraphHistory.getSlot
  dsimp only
  rw [if_neg (not_le.mpr hn), if_pos (lt_of_lt_of_le hn hc), Function.update_same]

theorem GraphHistory.getSlot_update_other (buf : Nat → GraphSlot) (n : Nat) (s : GraphSlot)
    (cnt i : Nat) (hi : i < cnt) (hne : i ≠ n) (hc : cnt ≤ GRAPH_HISTORY_SIZE) :
    GraphHistory.getSlot { _buffer := Function.update buf n s, _count := cnt } i =
      some (buf i) := by
  unfold GraphHistory.getSlot
  dsimp only
  rw [if_neg (not_le.mpr hi), if_pos (lt_of_lt_of_le hi hc), Function.update_noteq hne]

/-- C24, as stated, fails: 240 points with pit values 0, 1, …, 239 are added to an
empty buffer, then one more point (pit 1000), which triggers condensation.
Afterwards no index returns the point added just before the triggering call (pit
239): it has been averaged with its predecessor into slot 119, which holds pit
238.5. -/
theorem condensation_recent_data_counterexample :
    ∃ h,
      graphRun (GraphHistory.ctor fun _ => GraphHistory.emptySlot)
        (((List.range 240).map fun i : Nat =>
            GraphCall.addPoint (i : ℚ) 0 0 225 false true true) ++
          [GraphCall.addPoint 1000 0 0 225 false true true]) = some h ∧
      h.getCount = 121 ∧
      (∀ i, h.getSlot i ≠
        some { pit := 239, meat1 := 0, meat2 := 0, setpoint := 225,
               pitValid := true, meat1Valid := false, meat2Valid := false }) ∧
      h.getSlot 119 =
        some { pit := 477 / 2, meat1 := 0, meat2 := 0, setpoint := 225,
               pitValid := true, meat1Valid := false, meat2Valid := false } := by
  obtain ⟨h0, hrun0, hcnt0, hbuf0⟩ :=
    graphRun_fill (fun _ => GraphHistory.emptySlot)
      (fun i : Nat => GraphCall.addPoint (i : ℚ) 0 0 225 false true true)
      (fun i : Nat =>
        { pit := (i : ℚ), meat1 := 0, meat2 := 0, setpoint := 225,
          pitValid := true, meat1Valid := false, meat2Valid := false })
      240 (le_refl _) (fun _ _ => rfl)
  obtain ⟨hc, _, hccnt, hcf, hadd⟩ :=
    GraphHistory.addPoint_full h0 1000 0 0 225 false true true hcnt0
  have hmerged : ∀ k, k < 120 →
      hc._buffer k =
        { pit := (((2 * k : Nat) : ℚ) + ((2 * k + 1 : Nat) : ℚ)) / 2, meat1 := 0, meat2 := 0,
          setpoint := 225, pitValid := true, meat1Valid := false, meat2Valid := false } := by
    intro k hk
    rw [hcf.2.1 k (Nat.zero_le _) (by unfold GRAPH_HISTORY_SIZE; omega),
      hbuf0 (2 * k) (by omega), hbuf0 (2 * k + 1) (by omega)]
    simp only [specMergeSlot, specMergeChannel]
    norm_num
  refine ⟨{ _buffer := Function.update hc._buffer 120
              { pit := 1000, meat1 := 0, meat2 := 0, setpoint := 225,
                pitValid := !false, meat1Valid := !true, meat2Valid := !true },
            _count := 121 }, ?_, rfl, ?_, ?_⟩
  · rw [graphRun_append, hrun0]
    show graphRun h0 [GraphCall.addPoint 1000 0 0 225 false true true] = _
    rw [graphRun_cons]
    show (h0.addPoint 1000 0 0 225 false true true).bind _ = _
    rw [hadd]
    rfl
  · intro i
    rcases Nat.lt_trichotomy i 120 with hlt | heq | hgt
    · rw [GraphHistory.getSlot_update_other _ 120 _ 121 i (by omega) (by omega) (by decide),
        hmerged i hlt]
      intro hcontra
      have hpit := congrArg GraphSlot.pit (Option.some.inj hcontra)
      have hq : (((2 * i : Nat) : ℚ) + ((2 * i + 1 : Nat) : ℚ)) / 2 = 239 := hpit
      have hq2 : ((4 * i + 1 : Nat) : ℚ) = ((478 : Nat) : ℚ) := by
        push_cast at hq ⊢
        linarith
      have hn : 4 * i + 1 = 478 := by exact_mod_cast hq2
      omega
    · rw [heq, GraphHistory.getSlot_update_same _ 120 _ 121 (by decide) (by decide)]
      intro hcontra
      have hpit := congrArg GraphSlot.pit (Option.some.inj hcontra)
      have hq : (1000 : ℚ) = 239 := hpit
      norm_num at hq
    · rw [GraphHistory.getSlot_of_ge _ i (by show i ≥ 121; omega)]
      intro hcontra
      have hpit := congrArg GraphSlot.pit (Option.some.inj hcontra)
      have hq : (0 : ℚ) = 239 := hpit
      norm_num at hq
  · rw [GraphHistory.getSlot_update_other _ 120 _ 121 119 (by decide) (by decide) (by decide),
      hmerged 119 (by decide)]
    norm_num

/-- C24 (amended): immediately after an `addPoint` call that triggers condensation,
every one of the 240 points stored before the call has been merged pairwise: slot k
is the merge of the former slots 2k and 2k+1 for every k < 120, so the point added
just before the triggering call is merged with its predecessor into slot 119. Only
the point added by the triggering call is its own slot, at index 120, and a further
`addPoint` appends its point unmerged at index 121. -/
theorem condensation_merges_every_stored_point (h : GraphHistory)
    (pit meat1 meat2 setpoint : ℚ) (pitDisc meat1Disc meat2Disc : Bool)
    (hfull : h.getCount = 240) :
    ∃ h1, h.addPoint pit meat1 meat2 setpoint pitDisc meat1Disc meat2Disc = some h1 ∧
      h1.getCount = 121 ∧
      (∀ k, k < 120 →
        h1.getSlot k = some (specMergeSlot (h._buffer (2 * k)) (h._buffer (2 * k + 1)))) ∧
      h1.getSlot 119 = some (specMergeSlot (h._buffer 238) (h._buffer 239)) ∧
      h1.getSlot 120 =
        some { pit := pit, meat1 := meat1, meat2 := meat2, setpoint := setpoint,
               pitValid := !pitDisc, meat1Valid := !meat1Disc, meat2Valid := !meat2Disc } ∧
      ∀ (p m1 m2 sp : ℚ) (pd m1d m2d : Bool),
        ∃ h2, h1.addPoint p m1 m2 sp pd m1d m2d = some h2 ∧
          h2.getCount = 122 ∧
          h2.getSlot 121 =
            some { pit := p, meat1 := m1, meat2 := m2, setpoint := sp,
                   pitValid := !pd, meat1Valid := !m1d, meat2Valid := !m2d } ∧
          h2.getSlot 120 = h1.getSlot 120 := by
  obtain ⟨hc, _, _, hcf, hadd⟩ :=
    GraphHistory.addPoint_full h pit meat1 meat2 setpoint pitDisc meat1Disc meat2Disc hfull
  have hsize : (121 : Nat) ≤ GRAPH_HISTORY_SIZE := by decide
  have hk : ∀ k, k < 120 →
      GraphHistory.getSlot
        { _buffer := Function.update hc._buffer 120
            { pit := pit, meat1 := meat1, meat2 := meat2, setpoint := setpoint,
              pitValid := !pitDisc, meat1Valid := !meat1Disc, meat2Valid := !meat2Disc },
          _count := 121 } k =
        some (specMergeSlot (h._buffer (2 * k)) (h._buffer (2 * k + 1))) := by
    intro k hk
    rw [GraphHistory.getSlot_update_other _ 120 _ 121 k (by omega) (by omega) hsize,
      hcf.2.1 k (Nat.zero_le _) (by unfold GRAPH_HISTORY_SIZE; omega)]
  have h120 : GraphHistory.getSlot
      { _buffer := Function.update hc._buffer 120
          { pit := pit, meat1 := meat1, meat2 := meat2, setpoint := setpoint,
            pitValid := !pitDisc, meat1Valid := !meat1Disc, meat2Valid := !meat2Disc },
        _count := 121 } 120 =
      some { pit := pit, meat1 := meat1, meat2 := meat2, setpoint := setpoint,
             pitValid := !pitDisc, meat1Valid := !meat1Disc, meat2Valid := !meat2Disc } :=
    GraphHistory.getSlot_update_same _ 120 _ 121 (by decide) hsize
  refine ⟨{ _buffer := Function.update hc._buffer 120
              { pit := pit, meat1 := meat1, meat2 := meat2, setpoint := setpoint,
                pitValid := !pitDisc, meat1Valid := !meat1Disc, meat2Valid := !meat2Disc },
            _count := 121 }, hadd, rfl, hk, hk 119 (by decide), h120, ?_⟩
  intro p m1 m2 sp pd m1d m2d
  have hlt : (121 : Nat) < GRAPH_HISTORY_SIZE := by decide
  refine ⟨_, GraphHistory.addPoint_below _ p m1 m2 sp pd m1d m2d hlt, ?_, ?_, ?_⟩
  · rfl
  · exact GraphHistory.getSlot_update_same _ 121 _ (121 + 1) (by decide) (by decide)
  · rw [h120, GraphHistory.getSlot_update_other _ 121 _ (121 + 1) 120 (by decide)
      (by decide) (by decide)]
    refine congrArg some ?_
    show Function.update hc._buffer 120 _ 120 = _
    exact Function.update_same _ _ _

/-- Instance of C24 (amended): a full buffer whose slot `i` holds pit value `i`, then
one more point; slot 119 holds the average of the former slots 238 and 239. -/
theorem condensation_merges_every_stored_point_witness :
    ∃ h1,
      GraphHistory.addPoint
        { _buffer := fun i =>
            { pit := i, meat1 := 0, meat2 := 0, setpoint := 225,
              pitValid := true, meat1Valid := false, meat2Valid := false },
          _count := 240 }
        1000 0 0 225 false true true = some h1 ∧
      h1.getCount = 121 ∧
      h1.getSlot 119 =
        some { pit := 477 / 2, meat1 := 0, meat2 := 0, setpoint := 225,
               pitValid := true, meat1Valid := false, meat2Valid := false } := by
  obtain ⟨h1, hadd, hcnt, _, h119, _⟩ :=
    condensation_merges_every_stored_point
      { _buffer := fun i =>
          { pit := i, meat1 := 0, meat2 := 0, setpoint := 225,
            pitValid := true, meat1Valid := false, meat2Valid := false },
        _count := 240 }
      1000 0 0 225 false true true rfl
  refine ⟨h1, hadd, hcnt, ?_⟩
  rw [h119]
  norm_num [specMergeSlot, specMergeChannel]

/-! ## Theorems: stored values stay within the inserted range -/

theorem specMergeChannel_within (lo hi a b : ℚ) (aValid bValid : Bool)
    (ha : aValid = true → lo ≤ a ∧ a ≤ hi) (hb : bValid = true → lo ≤ b ∧ b ≤ hi) :
    (specMergeChannel a aValid b bValid).2 = true →
      lo ≤ (specMergeChannel a aValid b bValid).1 ∧
        (specMergeChannel a aValid b bValid).1 ≤ hi := by
  cases aValid <;> cases bValid
  · intro h
    have h' : false = true := h
    exact Bool.noConfusion h'
  · intro _
    exact hb rfl
  · intro _
    exact ha rfl
  · intro _
    obtain ⟨ha1, ha2⟩ := ha rfl
    obtain ⟨hb1, hb2⟩ := hb rfl
    show lo ≤ (a + b) / 2 ∧ (a + b) / 2 ≤ hi
    constructor <;> linarith

theorem specMergeSlot_within (lo hi x y : GraphSlot) (hx : GraphSlot.Within lo hi x)
    (hy : GraphSlot.Within lo hi y) : GraphSlot.Within lo hi (specMergeSlot x y) := by
  obtain ⟨hx1, hx2, hx3, hx4, hx5⟩ := hx
  obtain ⟨hy1, hy2, hy3, hy4, hy5⟩ := hy
  refine ⟨specMergeChannel_within _ _ _ _ _ _ hx1 hy1,
    specMergeChannel_within _ _ _ _ _ _ hx2 hy2,
    specMergeChannel_within _ _ _ _ _ _ hx3 hy3, ?_, ?_⟩
  · show lo.setpoint ≤ (x.setpoint + y.setpoint) / 2
    linarith
  · show (x.setpoint + y.setpoint) / 2 ≤ hi.setpoint
    linarith

/-- One call keeps every stored slot within the bounds when the slot it appends is. -/
theorem GraphCall.exec_within (lo hi : GraphSlot) (h : GraphHistory) (c : GraphCall)
    (hc : h._count ≤ GRAPH_HISTORY_SIZE)
    (hin : ∀ i, i < h._count → GraphSlot.Within lo hi (h._buffer i))
    (hslot : ∀ s, c.slot = some s → GraphSlot.Within lo hi s) :
    ∃ h1, c.exec h = some h1 ∧ h1._count ≤ GRAPH_HISTORY_SIZE ∧
      ∀ i, i < h1._count → GraphSlot.Within lo hi (h1._buffer i) := by
  cases c with
  | clear =>
      refine ⟨h.clear, rfl, Nat.zero_le _, ?_⟩
      intro i hidx
      exact absurd hidx (Nat.not_lt_zero i)
  | addPoint p m1 m2 sp pd m1d m2d =>
      have hnew := hslot _ rfl
      rcases Nat.lt_or_ge h._count GRAPH_HISTORY_SIZE with hlt | hge
      · refine ⟨_, GraphHistory.addPoint_below h p m1 m2 sp pd m1d m2d hlt, hlt, ?_⟩
        intro i hidx
        show GraphSlot.Within lo hi (Function.update h._buffer h._count _ i)
        by_cases hic : i = h._count
        · rw [hic, Function.update_same]
          exact hnew
        · rw [Function.update_noteq hic]
          have hidx' : i < h._count + 1 := hidx
          exact hin i (by omega)
      · have heq : h._count = GRAPH_HISTORY_SIZE := le_antisymm hc hge
        obtain ⟨h1, _, _, hcf, hadd⟩ :=
          GraphHistory.addPoint_full h p m1 m2 sp pd m1d m2d heq
        refine ⟨_, hadd, by show 121 ≤ GRAPH_HISTORY_SIZE; decide, ?_⟩
        intro i hidx
        have hidx' : i < 121 := hidx
        show GraphSlot.Within lo hi (Function.update h1._buffer 120 _ i)
        by_cases hic : i = 120
        · rw [hic, Function.update_same]
          exact hnew
        · rw [Function.update_noteq hic,
            hcf.2.1 i (Nat.zero_le _) (by unfold GRAPH_HISTORY_SIZE; omega)]
          apply specMergeSlot_within
          · exact hin _ (by rw [heq]; unfold GRAPH_HISTORY_SIZE; omega)
          · exact hin _ (by rw [heq]; unfold GRAPH_HISTORY_SIZE; omega)

theorem graphRun_within (lo hi : GraphSlot) (calls : List GraphCall) :
    ∀ h : GraphHistory, h._count ≤ GRAPH_HISTORY_SIZE →
      (∀ i, i < h._count → GraphSlot.Within lo hi (h._buffer i)) →
      (∀ c ∈ calls, ∀ s, c.slot = some s → GraphSlot.Within lo hi s) →
      ∃ h1, graphRun h calls = some h1 ∧ h1._count ≤ GRAPH_HISTORY_SIZE ∧
        ∀ i, i < h1._count → GraphSlot.Within lo hi (h1._buffer i) := by
  induction calls with
  | nil =>
      intro h hc hin _
      exact ⟨h, rfl, hc, hin⟩
  | cons c rest ih =>
      intro h hc hin hall
      obtain ⟨h1, hex, hc1, hin1⟩ :=
        GraphCall.exec_within lo hi h c hc hin (hall c (List.mem_cons_self _ _))
      obtain ⟨h2, hrun, hc2, hin2⟩ :=
        ih h1 hc1 hin1 (fun c' hc' => hall c' (List.mem_cons_of_mem _ hc'))
      refine ⟨h2, ?_, hc2, hin2⟩
      rw [graphRun_cons, hex]
      exact hrun

/-- C30: let `lo` and `hi` bound, channel by channel, the values the `addPoint` calls
since the last `clear` (or since the empty buffer) inserted as valid, and their
setpoints; the minimum and maximum of those values are such bounds. Then after the
calls every slot `getSlot(i)`, i < `getCount()`, holds on each probe channel flagged
valid a value between the bounds of that channel, and a setpoint between the
setpoint bounds. -/
theorem history_values_within_range (uninit : Nat → GraphSlot)
    (before calls : List GraphCall) (lo hi : GraphSlot)
    (hcalls : ∀ c ∈ calls, ∀ s, c.slot = some s → GraphSlot.Within lo hi s) :
    (∃ h, graphRun (GraphHistory.ctor uninit) calls = some h ∧
      ∀ i, i < h.getCount → ∃ s, h.getSlot i = some s ∧ GraphSlot.Within lo hi s) ∧
    (∃ h, graphRun (GraphHistory.ctor uninit) (before ++ GraphCall.clear :: calls) = some h ∧
      ∀ i, i < h.getCount → ∃ s, h.getSlot i = some s ∧ GraphSlot.Within lo hi s) := by
  have hfrom : ∀ h0 : GraphHistory, h0._count = 0 →
      ∃ h, graphRun h0 calls = some h ∧
        ∀ i, i < h.getCount → ∃ s, h.getSlot i = some s ∧ GraphSlot.Within lo hi s := by
    intro h0 h00
    obtain ⟨h, hrun, hc, hin⟩ := graphRun_within lo hi calls h0
      (by rw [h00]; exact Nat.zero_le _)
      (by
        intro i hidx
        rw [h00] at hidx
        exact absurd hidx (Nat.not_lt_zero i))
      hcalls
    refine ⟨h, hrun, ?_⟩
    intro i hidx
    exact ⟨h._buffer i, GraphHistory.getSlot_of_lt h i hidx hc, hin i hidx⟩
  refine ⟨hfrom _ rfl, ?_⟩
  obtain ⟨hb, hrunb, _⟩ :=
    graphRun_capacity before (GraphHistory.ctor uninit) (Nat.zero_le _)
  obtain ⟨h, hrun, hres⟩ := hfrom hb.clear rfl
  refine ⟨h, ?_, hres⟩
  rw [graphRun_append, hrunb]
  show graphRun hb (GraphCall.clear :: calls) = _
  rw [graphRun_cons]
  exact hrun

/-- Instance of C30: a point with pit 500, a `clear`, then two points with valid pit
values 100 and 200 (meat probes disconnected, setpoint 225); every stored pit value
is between 100 and 200. -/
theorem history_values_within_range_witness :
    ∃ h,
      graphRun (GraphHistory.ctor fun _ => GraphHistory.emptySlot)
        ([GraphCall.addPoint 500 0 0 300 false true true] ++
          GraphCall.clear ::
            [GraphCall.addPoint 100 0 0 225 false true true,
             GraphCall.addPoint 200 0 0 225 false true true]) = some h ∧
      ∀ i, i < h.getCount →
        ∃ s, h.getSlot i = some s ∧
          GraphSlot.Within
            { pit := 100, meat1 := 0, meat2 := 0, setpoint := 225,
              pitValid := true, meat1Valid := true, meat2Valid := true }
            { pit := 200, meat1 := 0, meat2 := 0, setpoint := 225,
              pitValid := true, meat1Valid := true, meat2Valid := true } s :=
  (history_values_within_range (fun _ => GraphHistory.emptySlot)
    [GraphCall.addPoint 500 0 0 300 false true true]
    [GraphCall.addPoint 100 0 0 225 false true true,
     GraphCall.addPoint 200 0 0 225 false true true]
    { pit := 100, meat1 := 0, meat2 := 0, setpoint := 225,
      pitValid := true, meat1Valid := true, meat2Valid := true }
    { pit := 200, meat1 := 0, meat2 := 0, setpoint := 225,
      pitValid := true, meat1Valid := true, meat2Valid := true }
    (by
      intro c hc s hs
      rcases List.mem_cons.mp hc with hc1 | hc2
      · subst hc1
        have e := Option.some.inj hs
        subst e
        unfold GraphSlot.Within
        norm_num
      · have hc3 := List.mem_singleton.mp hc2
        subst hc3
        have e := Option.some.inj hs
        subst e
        unfold GraphSlot.Within
        norm_num)).2

/-! ## Theorems: single-precision rounding and fan below damper -/

theorem roundHalfEven_le_floor_add_one (y : ℚ) : roundHalfEven y ≤ ⌊y⌋ + 1 := by
  unfold roundHalfEven
  split_ifs <;> omega

theorem floor_le_roundHalfEven (y : ℚ) : ⌊y⌋ ≤ roundHalfEven y := by
  unfold roundHalfEven
  split_ifs <;> omega

theorem roundHalfEven_intCast (n : ℤ) : roundHalfEven (n : ℚ) = n := by
  unfold roundHalfEven
  rw [Int.floor_intCast, sub_self, if_pos (by norm_num)]

theorem roundHalfEven_le_of_le (y : ℚ) (N : ℤ) (h : y ≤ N) : roundHalfEven y ≤ N := by
  have hfl : ⌊y⌋ ≤ N := Int.floor_le_iff.mpr (lt_of_le_of_lt h (by norm_num))
  rcases lt_or_eq_of_le hfl with hlt | heq
  · have := roundHalfEven_le_floor_add_one y
    omega
  · have hy : (N : ℚ) ≤ y := by
      rw [← heq]
      exact Int.floor_le y
    have hyN : y = N := le_antisymm h hy
    rw [hyN, roundHalfEven_intCast]

theorem le_roundHalfEven_of_le (y : ℚ) (N : ℤ) (h : (N : ℚ) ≤ y) : N ≤ roundHalfEven y :=
  le_trans (Int.le_floor.mpr h) (floor_le_roundHalfEven y)

theorem roundHalfEven_mono (y z : ℚ) (h : y ≤ z) : roundHalfEven y ≤ roundHalfEven z := by
  have hfl : ⌊y⌋ ≤ ⌊z⌋ := Int.floor_le_floor h
  rcases lt_or_eq_of_le hfl with hlt | heq
  · have h1 := roundHalfEven_le_floor_add_one y
    have h2 := floor_le_roundHalfEven z
    omega
  · unfold roundHalfEven
    rw [heq]
    split_ifs <;> first | omega | (exfalso; linarith)


theorem roundHalfEven_eq_of_abs_sub_lt (y : ℚ) (n : ℤ) (h : |y - n| < 1 / 2) :
    roundHalfEven y = n := by
  obtain ⟨h1, h2⟩ := abs_lt.mp h
  by_cases hge : (n : ℚ) ≤ y
  · have hfl : ⌊y⌋ = n := Int.floor_eq_iff.mpr ⟨hge, by linarith⟩
    unfold roundHalfEven
    rw [hfl, if_pos (by linarith)]
  · have hlt : y < n := not_le.mp hge
    have hfl : ⌊y⌋ = n - 1 := Int.floor_eq_iff.mpr ⟨by push_cast; linarith, by push_cast; linarith⟩
    unfold roundHalfEven
    rw [hfl, if_neg (by push_cast; linarith), if_pos (by push_cast; linarith)]
    omega

theorem f32Quantum_pos (x : ℚ) : 0 < f32Quantum x := by
  unfold f32Quantum
  exact zpow_pos (by norm_num) _

theorem f32Round_zero : f32Round 0 = 0 := by
  unfold f32Round
  rw [zero_div, show (0 : ℚ) = ((0 : ℤ) : ℚ) by norm_num, roundHalfEven_intCast]
  norm_num

theorem f32Round_nonneg (x : ℚ) (hx : 0 ≤ x) : 0 ≤ f32Round x := by
  unfold f32Round
  apply mul_nonneg _ (f32Quantum_pos x).le
  have h : (0 : ℤ) ≤ roundHalfEven (x / f32Quantum x) :=
    le_roundHalfEven_of_le _ 0 (by
      push_cast
      exact div_nonneg hx (f32Quantum_pos x).le)
  exact_mod_cast h

/-- A positive `x` lies below the power of two that ends its binade. -/
theorem lt_two_zpow_exponent (x : ℚ) (hx : 0 < x) :
    x < (2 : ℚ) ^ (max (Int.log 2 |x|) (-126) + 1) := by
  rw [abs_of_pos hx]
  have h1 : x < ((2 : ℕ) : ℚ) ^ (Int.log 2 x + 1) := Int.lt_zpow_succ_log_self (by norm_num) x
  have h2 : ((2 : ℕ) : ℚ) ^ (Int.log 2 x + 1) ≤ ((2 : ℕ) : ℚ) ^ (max (Int.log 2 x) (-126) + 1) :=
    zpow_le_zpow_right₀ (by norm_num) (by omega)
  exact_mod_cast lt_of_lt_of_le h1 h2

theorem f32Round_le_two_zpow (x : ℚ) (hx : 0 < x) :
    f32Round x ≤ (2 : ℚ) ^ (max (Int.log 2 |x|) (-126) + 1) := by
  have hq := f32Quantum_pos x
  have hlt := lt_two_zpow_exponent x hx
  have hgrid : (2 : ℚ) ^ (max (Int.log 2 |x|) (-126) + 1) = ((2 ^ 24 : ℤ) : ℚ) * f32Quantum x := by
    unfold f32Quantum
    rw [show max (Int.log 2 |x|) (-126) + 1 = 24 + (max (Int.log 2 |x|) (-126) - 23) by ring,
      zpow_add₀ (by norm_num)]
    norm_num
  have hr : roundHalfEven (x / f32Quantum x) ≤ 2 ^ 24 := by
    apply roundHalfEven_le_of_le
    rw [div_le_iff₀ hq, ← hgrid]
    exact hlt.le
  unfold f32Round
  rw [hgrid]
  apply mul_le_mul_of_nonneg_right _ hq.le
  exact_mod_cast hr

theorem two_zpow_le_f32Round (x : ℚ) (hx : 0 < x) (hn : -126 ≤ Int.log 2 |x|) :
    (2 : ℚ) ^ (Int.log 2 |x|) ≤ f32Round x := by
  have hq := f32Quantum_pos x
  have hle : (2 : ℚ) ^ (Int.log 2 |x|) ≤ x := by
    rw [abs_of_pos hx]
    have := Int.zpow_log_le_self (b := 2) (r := x) (by norm_num) hx
    exact_mod_cast this
  have hgrid : (2 : ℚ) ^ (Int.log 2 |x|) = ((2 ^ 23 : ℤ) : ℚ) * f32Quantum x := by
    unfold f32Quantum
    rw [max_eq_left hn,
      show Int.log 2 |x| = 23 + (Int.log 2 |x| - 23) by ring, zpow_add₀ (by norm_num)]
    norm_num
  have hr : (2 ^ 23 : ℤ) ≤ roundHalfEven (x / f32Quantum x) := by
    apply le_roundHalfEven_of_le
    rw [le_div_iff₀ hq, ← hgrid]
    exact hle
  unfold f32Round
  rw [hgrid]
  apply mul_le_mul_of_nonneg_right _ hq.le
  exact_mod_cast hr

/-- Rounding to binary32 is monotone on the non-negative numbers. -/
theorem f32Round_mono (x y : ℚ) (hx : 0 ≤ x) (hxy : x ≤ y) : f32Round x ≤ f32Round y := by
  rcases eq_or_lt_of_le hx with h0 | hpos
  · rw [← h0, f32Round_zero]
    exact f32Round_nonneg y (le_trans hx hxy)
  · have hypos : 0 < y := lt_of_lt_of_le hpos hxy
    have hlog : Int.log 2 |x| ≤ Int.log 2 |y| := by
      rw [abs_of_pos hpos, abs_of_pos hypos]
      exact Int.log_mono_right hpos hxy
    by_cases he : max (Int.log 2 |x|) (-126) = max (Int.log 2 |y|) (-126)
    · have hq : f32Quantum x = f32Quantum y := by
        unfold f32Quantum
        rw [he]
      unfold f32Round
      rw [hq]
      apply mul_le_mul_of_nonneg_right _ (f32Quantum_pos y).le
      have := roundHalfEven_mono (x / f32Quantum y) (y / f32Quantum y)
        (div_le_div_of_nonneg_right hxy (f32Quantum_pos y).le)
      exact_mod_cast this
    · have hlt : max (Int.log 2 |x|) (-126) + 1 ≤ Int.log 2 |y| := by omega
      have hn : -126 ≤ Int.log 2 |y| := by omega
      calc f32Round x ≤ (2 : ℚ) ^ (max (Int.log 2 |x|) (-126) + 1) := f32Round_le_two_zpow x hpos
        _ ≤ (2 : ℚ) ^ (Int.log 2 |y|) := zpow_le_zpow_right₀ (by norm_num) hlt
        _ ≤ f32Round y := two_zpow_le_f32Round y hypos hn

/-- Value of `f32Round` at a positive `x` in the binade of exponent `e`, given the
integer nearest to `x` in units of that binade's spacing. -/
theorem f32Round_eq (x : ℚ) (e n : ℤ) (hx : 0 < x) (he : -126 ≤ e)
    (h1 : (2 : ℚ) ^ e ≤ x) (h2 : x < (2 : ℚ) ^ (e + 1))
    (hn : |x / (2 : ℚ) ^ (e - 23) - n| < 1 / 2) :
    f32Round x = (n : ℚ) * (2 : ℚ) ^ (e - 23) := by
  have hlog : Int.log 2 |x| = e := by
    rw [abs_of_pos hx]
    have ha : e ≤ Int.log 2 x :=
      (Int.zpow_le_iff_le_log (b := 2) (by norm_num) hx).mp (by exact_mod_cast h1)
    have hb : Int.log 2 x < e + 1 :=
      (Int.lt_zpow_iff_log_lt (b := 2) (by norm_num) hx).mp (by exact_mod_cast h2)
    omega
  have hq : f32Quantum x = (2 : ℚ) ^ (e - 23) := by
    unfold f32Quantum
    rw [hlog, max_eq_left he]
  unfold f32Round
  rw [hq, roundHalfEven_eq_of_abs_sub_lt _ n hn]

theorem f32Round_one : f32Round 1 = 1 :=
  (f32Round_eq 1 0 (2 ^ 23) (by norm_num) (by norm_num) (by norm_num) (by norm_num)
    (by norm_num)).trans (by norm_num)

theorem f32Round_hundred : f32Round 100 = 100 :=
  (f32Round_eq 100 6 13107200 (by norm_num) (by norm_num) (by norm_num) (by norm_num)
    (by norm_num)).trans (by norm_num)

theorem f32Round_fifteen : f32Round 15 = 15 :=
  (f32Round_eq 15 3 15728640 (by norm_num) (by norm_num) (by norm_num) (by norm_num)
    (by norm_num)).trans (by norm_num)

/-- The rounded scaling expression stays at or below 100 when the numerator does not
exceed the denominator. -/
theorem f32_scale_le_hundred (num den : ℚ) (h0 : 0 ≤ num) (h : num ≤ den) :
    f32Round (f32Round (f32Round num / f32Round den) * 100) ≤ 100 := by
  have ha : 0 ≤ f32Round num := f32Round_nonneg num h0
  have hab : f32Round num ≤ f32Round den := f32Round_mono num den h0 h
  have hb : 0 ≤ f32Round den := le_trans ha hab
  have hq1 : f32Round num / f32Round den ≤ 1 := div_le_one_of_le₀ hab hb
  have hq0 : 0 ≤ f32Round num / f32Round den := div_nonneg ha hb
  have hq : f32Round (f32Round num / f32Round den) ≤ 1 := by
    have hm := f32Round_mono (f32Round num / f32Round den) 1 hq0 hq1
    rwa [f32Round_one] at hm
  have hqn : 0 ≤ f32Round (f32Round num / f32Round den) := f32Round_nonneg _ hq0
  have hfin := f32Round_mono (f32Round (f32Round num / f32Round den) * 100) 100
    (mul_nonneg hqn (by norm_num)) (by linarith)
  rwa [f32Round_hundred] at hfin

theorem abs_roundHalfEven_sub_le (y : ℚ) : |(roundHalfEven y : ℚ) - y| ≤ 1 / 2 := by
  have h1 : (⌊y⌋ : ℚ) ≤ y := Int.floor_le y
  have h2 : y < ⌊y⌋ + 1 := Int.lt_floor_add_one y
  rw [abs_le]
  unfold roundHalfEven
  split_ifs <;> push_cast <;> constructor <;> linarith

/-- Rounding error of `f32Round`: relative 2^-24 in the normal range, absolute 2^-150
below it. -/
theorem abs_f32Round_sub_le (x : ℚ) (hx : 0 ≤ x) :
    |f32Round x - x| ≤ x * (1 / 2 ^ 24) + 1 / 2 ^ 150 := by
  rcases eq_or_lt_of_le hx with h0 | hpos
  · rw [← h0, f32Round_zero]
    norm_num
  · have hq := f32Quantum_pos x
    have herr : |f32Round x - x| ≤ f32Quantum x / 2 := by
      have hy := abs_roundHalfEven_sub_le (x / f32Quantum x)
      have e : f32Round x - x =
          ((roundHalfEven (x / f32Quantum x) : ℚ) - x / f32Quantum x) * f32Quantum x := by
        unfold f32Round
        field_simp
      rw [e, abs_mul, abs_of_pos hq]
      calc |(roundHalfEven (x / f32Quantum x) : ℚ) - x / f32Quantum x| * f32Quantum x
          ≤ 1 / 2 * f32Quantum x := mul_le_mul_of_nonneg_right hy hq.le
        _ = f32Quantum x / 2 := by ring
    have hquant : f32Quantum x ≤ x * (1 / 2 ^ 23) + 1 / 2 ^ 149 := by
      by_cases hn : -126 ≤ Int.log 2 |x|
      · have hle : (2 : ℚ) ^ (Int.log 2 |x|) ≤ x := by
          rw [abs_of_pos hpos]
          have := Int.zpow_log_le_self (b := 2) (r := x) (by norm_num) hpos
          exact_mod_cast this
        have e : f32Quantum x = (2 : ℚ) ^ (Int.log 2 |x|) * (1 / 2 ^ 23) := by
          unfold f32Quantum
          rw [max_eq_left hn, zpow_sub₀ (by norm_num)]
          norm_num
          ring
        rw [e]
        have : (2 : ℚ) ^ (Int.log 2 |x|) * (1 / 2 ^ 23) ≤ x * (1 / 2 ^ 23) :=
          mul_le_mul_of_nonneg_right hle (by norm_num)
        have h149 : (0 : ℚ) ≤ 1 / 2 ^ 149 := by norm_num
        linarith
      · have e : f32Quantum x = 1 / 2 ^ 149 := by
          unfold f32Quantum
          rw [max_eq_right (by omega)]
          norm_num
        rw [e]
        have : 0 ≤ x * (1 / 2 ^ 23) := mul_nonneg hx (by norm_num)
        linarith
    calc |f32Round x - x| ≤ f32Quantum x / 2 := herr
      _ ≤ (x * (1 / 2 ^ 23) + 1 / 2 ^ 149) / 2 := by linarith
      _ = x * (1 / 2 ^ 24) + 1 / 2 ^ 150 := by ring


theorem f32Round_le_add (x : ℚ) (hx : 0 ≤ x) :
    f32Round x ≤ x * (1 + 1 / 2 ^ 24) + 1 / 2 ^ 150 := by
  have h := (abs_le.mp (abs_f32Round_sub_le x hx)).2
  linarith

theorem sub_le_f32Round (x : ℚ) (hx : 0 ≤ x) :
    x * (1 - 1 / 2 ^ 24) - 1 / 2 ^ 150 ≤ f32Round x := by
  have h := (abs_le.mp (abs_f32Round_sub_le x hx)).1
  linarith

/-- The rounded scaling expression exceeds a bound `p` on its exact value by less than
2^-15, for a denominator that is not tiny. -/
theorem f32_scale_le_add (num den p : ℚ) (h0 : 0 ≤ num) (h : num ≤ den)
    (hden : 1 / 2 ^ 60 ≤ den) (hp : num / den * 100 ≤ p) :
    f32Round (f32Round (f32Round num / f32Round den) * 100) ≤ p + 1 / 2 ^ 15 := by
  have hdpos : 0 < den := lt_of_lt_of_le (by norm_num) hden
  have hw0 : 0 ≤ num / den := div_nonneg h0 hdpos.le
  have hw1 : num / den ≤ 1 := div_le_one_of_le₀ h hdpos.le
  have hwD : num / den * den = num := div_mul_cancel₀ num hdpos.ne'
  have hA0 : 0 ≤ f32Round num := f32Round_nonneg num h0
  have hA : f32Round num ≤ num * (1 + 1 / 2 ^ 24) + 1 / 2 ^ 150 := f32Round_le_add num h0
  have hB : den * (1 - 1 / 2 ^ 24) - 1 / 2 ^ 150 ≤ f32Round den :=
    sub_le_f32Round den hdpos.le
  have hBden : 0 < den * (1 - 1 / 2 ^ 24) - 1 / 2 ^ 150 := by linarith
  have hBpos : 0 < f32Round den := lt_of_lt_of_le hBden hB
  have htarget : 0 ≤ num / den * (1 + 3 / 2 ^ 24) + 1 / 2 ^ 80 := by
    have : 0 ≤ num / den * (1 + 3 / 2 ^ 24) := mul_nonneg hw0 (by norm_num)
    linarith
  have hkey : num * (1 + 1 / 2 ^ 24) + 1 / 2 ^ 150 ≤
      (num / den * (1 + 3 / 2 ^ 24) + 1 / 2 ^ 80) *
        (den * (1 - 1 / 2 ^ 24) - 1 / 2 ^ 150) := by
    have e : ∀ w : ℚ, w * den = num →
        (w * (1 + 3 / 2 ^ 24) + 1 / 2 ^ 80) * (den * (1 - 1 / 2 ^ 24) - 1 / 2 ^ 150) =
          num * ((1 + 3 / 2 ^ 24) * (1 - 1 / 2 ^ 24)) -
            w * ((1 + 3 / 2 ^ 24) * (1 / 2 ^ 150)) +
            den * (1 / 2 ^ 80 * (1 - 1 / 2 ^ 24)) - 1 / 2 ^ 80 * (1 / 2 ^ 150) := by
      intro w hw
      rw [← hw]
      ring
    rw [e (num / den) hwD]
    linarith
  have hX : f32Round num / f32Round den ≤ num / den * (1 + 3 / 2 ^ 24) + 1 / 2 ^ 80 := by
    rw [div_le_iff₀ hBpos]
    calc f32Round num ≤ num * (1 + 1 / 2 ^ 24) + 1 / 2 ^ 150 := hA
      _ ≤ (num / den * (1 + 3 / 2 ^ 24) + 1 / 2 ^ 80) *
            (den * (1 - 1 / 2 ^ 24) - 1 / 2 ^ 150) := hkey
      _ ≤ (num / den * (1 + 3 / 2 ^ 24) + 1 / 2 ^ 80) * f32Round den :=
          mul_le_mul_of_nonneg_left hB htarget
  have hX0 : 0 ≤ f32Round num / f32Round den := div_nonneg hA0 hBpos.le
  have hQ := f32Round_le_add _ hX0
  have hQ0 : 0 ≤ f32Round (f32Round num / f32Round den) := f32Round_nonneg _ hX0
  have hR := f32Round_le_add (f32Round (f32Round num / f32Round den) * 100)
    (mul_nonneg hQ0 (by norm_num))
  linarith

/-- C29, as stated, fails in the code's single-precision arithmetic: for pidOutput 15
and fanOnThreshold 0 (both `float` values inside [0,100]) in mode "fan_and_damper",
15/100 rounds to 5033165/2^25 and its product with 100 rounds up to
15728641/2^20 = 15.00000095…, so fanPercent exceeds damperPercent = 15. -/
theorem splitRange_fan_le_damper_counterexample :
    ((0 : ℚ) ≤ 15 ∧ (15 : ℚ) ≤ 100) ∧ ((0 : ℚ) ≤ 0 ∧ (0 : ℚ) ≤ 100) ∧
    f32Round 15 = 15 ∧ f32Round 0 = 0 ∧
    (splitRangeF32 15 "fan_and_damper" 0).fanPercent = 15728641 / 1048576 ∧
    (splitRangeF32 15 "fan_and_damper" 0).damperPercent = 15 ∧
    (splitRangeF32 15 "fan_and_damper" 0).damperPercent <
      (splitRangeF32 15 "fan_and_damper" 0).fanPercent := by
  have hq : f32Round (15 / 100) = 5033165 / 33554432 :=
    (f32Round_eq (15 / 100) (-3) 10066330 (by norm_num) (by norm_num) (by norm_num)
      (by norm_num) (by rw [abs_lt]; constructor <;> norm_num)).trans (by norm_num)
  have hr : f32Round (5033165 / 33554432 * 100) = 15728641 / 1048576 :=
    (f32Round_eq (5033165 / 33554432 * 100) 3 15728641 (by norm_num) (by norm_num)
      (by norm_num) (by norm_num) (by rw [abs_lt]; constructor <;> norm_num)).trans
      (by norm_num)
  have e : splitRangeF32 15 "fan_and_damper" 0 =
      { fanPercent := 15728641 / 1048576, damperPercent := 15 } := by
    unfold splitRangeF32
    rw [if_neg (by decide), if_neg (by decide), if_pos (by norm_num), sub_zero, sub_zero,
      f32Round_fifteen, f32Round_hundred, hq, hr]
  rw [e]
  refine ⟨by norm_num, by norm_num, f32Round_fifteen, f32Round_zero, rfl, rfl, ?_⟩
  norm_num

theorem splitRange_scale_le_self (p t : ℚ) (ht0 : 0 ≤ t) (hgt : t < p) (hp1 : p ≤ 100) :
    (p - t) / (100 - t) * 100 ≤ p := by
  have hd : 0 < 100 - t := by linarith
  rw [div_mul_eq_mul_div, div_le_iff₀ hd]
  nlinarith [mul_nonneg ht0 (sub_nonneg.mpr hp1)]

/-- In single precision the scaled fan value exceeds pidOutput by at most 2^-15. -/
theorem f32_scale_le_self_add (p t : ℚ) (ht0 : 0 ≤ t) (hgt : t < p) (hp1 : p ≤ 100) :
    f32Round (f32Round (f32Round (p - t) / f32Round (100 - t)) * 100) ≤ p + 1 / 2 ^ 15 := by
  have h0 : 0 ≤ p - t := by linarith
  have hle : p - t ≤ 100 - t := by linarith
  by_cases hden : 1 / 2 ^ 60 ≤ 100 - t
  · exact f32_scale_le_add (p - t) (100 - t) p h0 hle hden
      (splitRange_scale_le_self p t ht0 hgt hp1)
  · have h100 := f32_scale_le_hundred (p - t) (100 - t) h0 hle
    have hsmall : 100 - t < 1 / 2 ^ 60 := not_le.mp hden
    have h15 : (1 : ℚ) / 2 ^ 60 ≤ 1 / 2 ^ 15 := by norm_num
    linarith

/-- C29 (amended): for every mode string, every pidOutput in [0,100] and every
fanOnThreshold in [0,100]: with exact arithmetic the result of `splitRange` has
fanPercent ≤ damperPercent; with the code's single-precision arithmetic
fanPercent ≤ damperPercent holds in mode "fan_only", in mode "damper_primary", and in
every other mode whenever pidOutput ≤ fanOnThreshold, and in the remaining case (the
scaled fan value of the default branch) fanPercent exceeds damperPercent by at most
2^-15, the rounding of the scaling expression. -/
theorem splitRange_fan_le_damper_up_to_rounding (fanMode : String)
    (pidOutput fanOnThreshold : ℚ)
    (hp : 0 ≤ pidOutput ∧ pidOutput ≤ 100)
    (ht : 0 ≤ fanOnThreshold ∧ fanOnThreshold ≤ 100) :
    (splitRange pidOutput fanMode fanOnThreshold).fanPercent ≤
      (splitRange pidOutput fanMode fanOnThreshold).damperPercent ∧
    ((fanMode = "fan_only" ∨ fanMode = "damper_primary" ∨ pidOutput ≤ fanOnThreshold) →
      (splitRangeF32 pidOutput fanMode fanOnThreshold).fanPercent ≤
        (splitRangeF32 pidOutput fanMode fanOnThreshold).damperPercent) ∧
    (splitRangeF32 pidOutput fanMode fanOnThreshold).fanPercent ≤
      (splitRangeF32 pidOutput fanMode fanOnThreshold).damperPercent + 1 / 2 ^ 15 := by
  have hexact := splitRange_fan_le_damper_exact fanMode pidOutput fanOnThreshold hp ht
  obtain ⟨hp0, hp1⟩ := hp
  obtain ⟨ht0, _⟩ := ht
  have hslack : (0 : ℚ) ≤ 1 / 2 ^ 15 := by norm_num
  have hdp : ∀ x : ℚ, x > max fanOnThreshold 50 → x ≤ 100 →
      f32Round (f32Round (f32Round (x - max fanOnThreshold 50) /
        f32Round (100 - max fanOnThreshold 50)) * 100) ≤ 100 := by
    intro x hx hx1
    exact f32_scale_le_hundred _ _ (by linarith) (by linarith)
  refine ⟨hexact, ?_, ?_⟩
  · intro hcase
    unfold splitRangeF32
    dsimp only
    by_cases hm1 : fanMode = "fan_only"
    · rw [if_pos hm1]
      exact hp1
    · rw [if_neg hm1]
      by_cases hm2 : fanMode = "damper_primary"
      · rw [if_pos hm2]
        by_cases hgt : pidOutput > max fanOnThreshold 50
        · rw [if_pos hgt]
          exact hdp pidOutput hgt hp1
        · rw [if_neg hgt]
          exact hp0
      · have hle : pidOutput ≤ fanOnThreshold := by
          rcases hcase with h | h | h
          · exact absurd h hm1
          · exact absurd h hm2
          · exact h
        rw [if_neg hm2, if_neg (not_lt.mpr hle)]
        exact hp0
  · unfold splitRangeF32
    dsimp only
    by_cases hm1 : fanMode = "fan_only"
    · rw [if_pos hm1]
      show pidOutput ≤ 100 + 1 / 2 ^ 15
      linarith
    · rw [if_neg hm1]
      by_cases hm2 : fanMode = "damper_primary"
      · rw [if_pos hm2]
        by_cases hgt : pidOutput > max fanOnThreshold 50
        · rw [if_pos hgt]
          have := hdp pidOutput hgt hp1
          show _ ≤ (100 : ℚ) + 1 / 2 ^ 15
          linarith
        · rw [if_neg hgt]
          show (0 : ℚ) ≤ pidOutput + 1 / 2 ^ 15
          linarith
      · rw [if_neg hm2]
        by_cases hgt : pidOutput > fanOnThreshold
        · rw [if_pos hgt]
          exact f32_scale_le_self_add pidOutput fanOnThreshold ht0 hgt hp1
        · rw [if_neg hgt]
          show (0 : ℚ) ≤ pidOutput + 1 / 2 ^ 15
          linarith

/-- Instance of C29 (amended): mode "fan_and_damper", pidOutput 15, fanOnThreshold 0,
the input at which the single-precision fan value is above the damper. -/
theorem splitRange_fan_le_damper_up_to_rounding_witness :
    (splitRange 15 "fan_and_damper" 0).fanPercent ≤
      (splitRange 15 "fan_and_damper" 0).damperPercent ∧
    (("fan_and_damper" = "fan_only" ∨ "fan_and_damper" = "damper_primary" ∨ (15 : ℚ) ≤ 0) →
      (splitRangeF32 15 "fan_and_damper" 0).fanPercent ≤
        (splitRangeF32 15 "fan_and_damper" 0).damperPercent) ∧
    (splitRangeF32 15 "fan_and_damper" 0).fanPercent ≤
      (splitRangeF32 15 "fan_and_damper" 0).damperPercent + 1 / 2 ^ 15 :=
  splitRange_fan_le_damper_up_to_rounding "fan_and_damper" 15 0 (by norm_num) (by norm_num)

end Pitclaw
